import Mathlib

/-!
# Command submission and fence synchronisation of the WildMini DX12 backend

A shallow embedding of

* `Code/WMFramework/Graphics/Private/DX12/CommandQueue.cpp`
* `Code/WMFramework/Graphics/Private/DX12/CommandBuffer.cpp`
* `Code/Editor/EditorApplication.cpp` (`Render`, `OnResize`)
* `Code/WMFramework/Graphics/Primitive/WMColor.cpp`

Objects reached through pointers (`ComPtr`, `this`) live in a `World` and are
addressed by natural numbers.  The GPU is a consumer of the commands a native
queue has accepted: it retires them oldest first, and retiring a `Signal`
stores the signalled value in the fence.  The GPU makes progress between two
calls of the render thread and while the thread is blocked in a wait; a call
itself is atomic.  `uint64_t` arithmetic is arithmetic on `Nat` modulo
`2 ^ 64`.
-/

namespace WildMini

/-! ## Native objects -/

/-- Number of values of a `uint64_t`: `++fenceNumber` is taken modulo this. -/
def UINT64_RANGE : Nat := 2 ^ 64

/-- The constant `D3D12_COMMAND_LIST_TYPE_DIRECT` of the D3D12 headers. -/
def D3D12_COMMAND_LIST_TYPE_DIRECT : Nat := 0

/-- Recording state of an `ID3D12GraphicsCommandList`. -/
inductive ListState
  | Open
  | Closed
deriving DecidableEq, Repr

/-- The calls `EditorApplication::Render` records through its encoder
(lines 154-168), with the integer arguments it passes. -/
inductive EncoderCall
  | ClearRenderTarget
  | ClearDepthStencil
  | SetViewport (width height : Nat)
  | SetScissorRect (width height : Nat)
  | SetRenderTargets
  | SetConstantBuffer (index : Nat)
  | SetVertexBuffer
  | DrawPrimitives (vertexCount instanceCount startVertex startInstance : Nat)
  | ImguiRender
deriving DecidableEq, Repr

/-- An `ID3D12GraphicsCommandList`: its recording state and what it holds. -/
structure GraphicsCommandList where
  state : ListState
  recorded : List EncoderCall
deriving DecidableEq, Repr

/-- An `ID3D12CommandAllocator`, observed through the number of `Reset` calls. -/
structure CommandAllocator where
  resets : Nat
deriving DecidableEq, Repr

/-- Native call `ID3D12CommandAllocator::Reset`. -/
def CommandAllocator.Reset (a : CommandAllocator) : CommandAllocator :=
  { a with resets := a.resets + 1 }

/-- Native call `ID3D12GraphicsCommandList::Reset(allocator, pipelineState)`: a closed
list is recording again and holds nothing; on a list that is still recording
the call fails and changes nothing. -/
def GraphicsCommandList.Reset (l : GraphicsCommandList) : GraphicsCommandList :=
  match l.state with
  | ListState.Closed => { state := ListState.Open, recorded := [] }
  | ListState.Open => l

/-- Native call `ID3D12GraphicsCommandList::Close`. -/
def GraphicsCommandList.Close (l : GraphicsCommandList) : GraphicsCommandList :=
  { l with state := ListState.Closed }

/-- What a native `ID3D12CommandQueue` has accepted and the GPU has still to
retire.  `execute` keeps, for each list handed over, its address and the
recording state it was in when it was handed over. -/
inductive GpuCmd
  | execute (lists : List (Nat × ListState))
  | signal (value : Nat)
deriving DecidableEq, Repr

/-- Fence value after the GPU has retired one command: a `Signal` stores its
value, executed lists leave the fence alone. -/
def GpuCmd.retire : GpuCmd → Nat → Nat
  | GpuCmd.execute _, completed => completed
  | GpuCmd.signal value, _ => value

/-! ## CommandQueue -/

/-- The members of `DX12::CommandQueue` (constructor, lines 17-29).
`commandQueue` is the native queue, given by the commands it has accepted and
the GPU has not retired yet (oldest first); `fence` is the native fence, given
by `GetCompletedValue()`; allocator and list are addresses in the `World`.
`fenceNumber` is declared in CommandQueue.h, which is not among the sources;
it is the `uint64_t` that `ExecuteCommandLists` returns and `Signal` takes, so
its methods keep it below `UINT64_RANGE`. -/
structure CommandQueue where
  device : Nat
  commandQueue : List GpuCmd
  commandAllocator : Nat
  commandList : Nat
  fence : Nat
  fenceNumber : Nat
deriving DecidableEq, Repr

/-- The constructor `CommandQueue::CommandQueue` (lines 17-29): the members
are the arguments and `fenceNumber(0)`. -/
def CommandQueue.new (device : Nat) (commandQueue : List GpuCmd)
    (commandAllocator commandList fence : Nat) : CommandQueue :=
  { device := device, commandQueue := commandQueue, commandAllocator := commandAllocator,
    commandList := commandList, fence := fence, fenceNumber := 0 }

/-- Every object the code reaches through a pointer, by address, and the
number of `WaitForSingleObject` calls the thread has made. -/
structure World where
  queues : Nat → CommandQueue
  lists : Nat → GraphicsCommandList
  allocators : Nat → CommandAllocator
  osWaits : Nat

/-- The members of `DX12::CommandBuffer` (constructor, lines 15-21). -/
structure CommandBuffer where
  type : Nat
  commandQueue : Nat
  commandList : Nat
  commandAllocator : Nat
deriving DecidableEq, Repr

/-- A `WMWindow`, read through `width` and `height`. -/
structure Window where
  width : Nat
  height : Nat
deriving DecidableEq, Repr

/-- Modelled from the spec: `DX12::SwapChain` (SwapChain.cpp is not among the
sources).  It is bound to a queue and a window, owns targets sized
`width x height`, `Resize` recreates them at the new size and `Present`
advances to the next of `bufferCount` back buffers.  `resizeCalls` and
`presents` record the calls made. -/
structure SwapChain where
  device : Nat
  commandQueue : Nat
  window : Window
  width : Nat
  height : Nat
  bufferCount : Nat
  backBufferIndex : Nat
  resizeCalls : List (Nat × Nat)
  presents : Nat
deriving DecidableEq, Repr

/-- Modelled from the spec: `SwapChain::Resize(width, height)` recreates the
render-target and depth-stencil resources at the new size. -/
def SwapChain.Resize (s : SwapChain) (width height : Nat) : SwapChain :=
  { s with width := width, height := height, resizeCalls := s.resizeCalls ++ [(width, height)] }

/-- Modelled from the spec: `SwapChain::Present()` hands the current back
buffer to the display and advances to the next back buffer index. -/
def SwapChain.Present (s : SwapChain) : SwapChain :=
  { s with backBufferIndex := (s.backBufferIndex + 1) % s.bufferCount, presents := s.presents + 1 }

/-- Replace the queue at address `self`. -/
def World.setQueue (w : World) (self : Nat) (q : CommandQueue) : World :=
  { w with queues := Function.update w.queues self q }

/-- Embedding of `CommandQueue::CreateCommandBuffer` (lines 31-38): reset the allocator,
then hand out a new buffer on this queue, its allocator and its list. -/
def CommandQueue.CreateCommandBuffer (self : Nat) (w : World) : World × Option CommandBuffer :=
  let q := w.queues self
  let allocator := (w.allocators q.commandAllocator).Reset
  let w1 : World := { w with allocators := Function.update w.allocators q.commandAllocator allocator }
  (w1, some { type := D3D12_COMMAND_LIST_TYPE_DIRECT, commandQueue := self,
              commandList := q.commandList, commandAllocator := q.commandAllocator })

/-- Embedding of `CommandQueue::CreateSwapChain` (lines 40-43): `new SwapChain(device, this,
window)`.  The constructor is modelled from the spec: a swap chain bound to
this queue and the window, sized to the window; `bufferCount` is the number of
back buffers it creates. -/
def CommandQueue.CreateSwapChain (self : Nat) (window : Window) (bufferCount : Nat) (w : World) :
    World × Option SwapChain :=
  (w, some { device := (w.queues self).device, commandQueue := self, window := window,
             width := window.width, height := window.height, bufferCount := bufferCount,
             backBufferIndex := 0, resizeCalls := [], presents := 0 })

/-- The blocked thread of `WaitForSingleObject(eventHandle, INFINITE)` after
`SetEventOnCompletion(target, eventHandle)`: the GPU retires accepted commands,
oldest first, and the thread resumes in the first state whose completed value
has reached `target`.  `none`: the queue runs dry first and the wait never
returns. -/
def awaitFence (target : Nat) : List GpuCmd → Nat → Option (List GpuCmd × Nat)
  | [], completed => if target ≤ completed then some ([], completed) else none
  | c :: rest, completed =>
    if target ≤ completed then some (c :: rest, completed)
    else awaitFence target rest (c.retire completed)

/-- Embedding of `CommandQueue::WaitComplete` (lines 45-55).  `none`: the call never
returns. -/
def CommandQueue.WaitComplete (self : Nat) (w : World) : Option World :=
  let q := w.queues self
  let fenceNumber := (q.fenceNumber + 1) % UINT64_RANGE
  let q1 : CommandQueue :=
    { q with fenceNumber := fenceNumber,
             commandQueue := q.commandQueue ++ [GpuCmd.signal fenceNumber] }
  if q1.fence < q1.fenceNumber then
    match awaitFence q1.fenceNumber q1.commandQueue q1.fence with
    | none => none
    | some (pending, completed) =>
      some { w.setQueue self { q1 with commandQueue := pending, fence := completed } with
             osWaits := w.osWaits + 1 }
  else
    some (w.setQueue self q1)

/-- Embedding of `CommandQueue::ExecuteCommandLists` (lines 57-62): hand the lists to the
native queue, signal the fence with `++fenceNumber`, return `fenceNumber`. -/
def CommandQueue.ExecuteCommandLists (self : Nat) (commandLists : List Nat) (w : World) :
    World × Nat :=
  let q := w.queues self
  let submitted := GpuCmd.execute (commandLists.map fun l => (l, (w.lists l).state))
  let fenceNumber := (q.fenceNumber + 1) % UINT64_RANGE
  let q1 : CommandQueue :=
    { q with fenceNumber := fenceNumber,
             commandQueue := q.commandQueue ++ [submitted, GpuCmd.signal fenceNumber] }
  (w.setQueue self q1, q1.fenceNumber)

/-- One "GPU finishes" event on the queue at `self`: the oldest accepted
command is retired. -/
def gpuFinish (self : Nat) (w : World) : World :=
  let q := w.queues self
  match q.commandQueue with
  | [] => w
  | c :: rest => w.setQueue self { q with commandQueue := rest, fence := c.retire q.fence }

/-- The outcome of `n` "GPU finishes" events on the queue at `self`. -/
def gpuRun (self : Nat) : Nat → World → World
  | 0, w => w
  | n + 1, w => gpuRun self n (gpuFinish self w)

/-! ## CommandBuffer and the encoder -/

/-- A `DX12::RenderPipeline`, read through `PipelineState()`. -/
structure RenderPipeline where
  pipelineState : Nat
deriving DecidableEq, Repr

/-- The arguments of `new RenderCommandEncoder(renderPipeline, this,
commandList.Get())` (CommandBuffer.cpp line 27). -/
structure RenderCommandEncoder where
  renderPipeline : RenderPipeline
  commandBuffer : CommandBuffer
  commandList : Nat
deriving DecidableEq, Repr

/-- Embedding of `CommandBuffer::CreateRenderCommandEncoder` (lines 23-28): reset the held
list against the buffer's allocator and the pipeline state, hand out an
encoder on it.  The pipeline is a built DX12 pipeline, on which the
`dynamic_cast` is the identity. -/
def CommandBuffer.CreateRenderCommandEncoder (cb : CommandBuffer) (renderPipeline : RenderPipeline)
    (w : World) : World × Option RenderCommandEncoder :=
  let list := (w.lists cb.commandList).Reset
  let w1 : World := { w with lists := Function.update w.lists cb.commandList list }
  (w1, some { renderPipeline := renderPipeline, commandBuffer := cb, commandList := cb.commandList })

/-- Embedding of `CommandBuffer::Commit` (lines 30-34): `commandQueue->ExecuteCommandLists(1,
cmdList)` with `cmdList = { commandList.Get() }`; the returned fence value is
dropped. -/
def CommandBuffer.Commit (cb : CommandBuffer) (w : World) : World :=
  (CommandQueue.ExecuteCommandLists cb.commandQueue [cb.commandList] w).1

/-- Embedding of `CommandBuffer::AddEncodedCommandList` (lines 36-39). -/
def CommandBuffer.AddEncodedCommandList (cb : CommandBuffer) (commandList : Nat) : CommandBuffer :=
  { cb with commandList := commandList }

/-- Modelled from the spec: the recording calls of `RenderCommandEncoder`
(RenderCommandEncoder.cpp is not among the sources) record, in order, onto the
bound command list; they do not open or close it. -/
def RenderCommandEncoder.record (enc : RenderCommandEncoder) (call : EncoderCall) (w : World) :
    World :=
  let l := w.lists enc.commandList
  { w with lists := Function.update w.lists enc.commandList { l with recorded := l.recorded ++ [call] } }

/-- Modelled from the spec: `RenderCommandEncoder::EndEncoding(targets)`
(RenderCommandEncoder.cpp is not among the sources) closes the command list;
the state transitions of the listed render targets touch no list, queue or
allocator. -/
def RenderCommandEncoder.EndEncoding (enc : RenderCommandEncoder) (_renderTargets : List Nat)
    (w : World) : World :=
  { w with lists := Function.update w.lists enc.commandList (w.lists enc.commandList).Close }

/-- A run of recording calls on one encoder. -/
def RenderCommandEncoder.recordAll (enc : RenderCommandEncoder) : List EncoderCall → World → World
  | [], w => w
  | call :: calls, w => recordAll enc calls (enc.record call w)

/-! ## Sequences of operations on one queue -/

/-- What can happen to one queue: a call of one of its four methods, or one
"GPU finishes" event. -/
inductive QueueEvent
  | CreateCommandBuffer
  | CreateSwapChain (window : Window) (bufferCount : Nat)
  | ExecuteCommandLists (commandLists : List Nat)
  | WaitComplete
  | GpuFinish
deriving DecidableEq, Repr

/-- Run the events on the queue at `self`, oldest first; the result carries
the values the `ExecuteCommandLists` calls returned, in call order.  `none`: a
`WaitComplete` never returned. -/
def runEvents (self : Nat) : List QueueEvent → World → Option (World × List Nat)
  | [], w => some (w, [])
  | QueueEvent.CreateCommandBuffer :: rest, w =>
    runEvents self rest (CommandQueue.CreateCommandBuffer self w).1
  | QueueEvent.CreateSwapChain window bufferCount :: rest, w =>
    runEvents self rest (CommandQueue.CreateSwapChain self window bufferCount w).1
  | QueueEvent.ExecuteCommandLists commandLists :: rest, w =>
    match runEvents self rest (CommandQueue.ExecuteCommandLists self commandLists w).1 with
    | none => none
    | some (w1, returned) =>
      some (w1, (CommandQueue.ExecuteCommandLists self commandLists w).2 :: returned)
  | QueueEvent.WaitComplete :: rest, w =>
    match CommandQueue.WaitComplete self w with
    | none => none
    | some w1 => runEvents self rest w1
  | QueueEvent.GpuFinish :: rest, w => runEvents self rest (gpuFinish self w)

/-! ## EditorApplication -/

/-- The members of `EditorApplication` that `Render` and `OnResize` touch.
`uiCamera` is the size last given to `SetOrthographics`, `uiMeshVertices` is
`uiMesh->vertices.size()`. -/
structure EditorApplication where
  world : World
  window : Window
  commandQueue : Nat
  swapChain : SwapChain
  renderPipeline : RenderPipeline
  uiCamera : Nat × Nat
  uiMeshVertices : Nat
  needResize : Bool

/-- Embedding of `EditorApplication::OnResize` (lines 178-181). -/
def EditorApplication.OnResize (app : EditorApplication) (_width _height : Nat) :
    EditorApplication :=
  { app with needResize := true }

/-- How far the GPU gets, in retired commands, while the render thread is
between two calls on the queue: before `CreateCommandBuffer`, before `Commit`
and before `WaitComplete`. -/
structure GpuProgress where
  beforeCreate : Nat
  beforeCommit : Nat
  beforeWait : Nat
deriving DecidableEq, Repr

/-- Embedding of `EditorApplication::Render`, lines 143-148: the pending resize. -/
def EditorApplication.Render.resize (app : EditorApplication) : EditorApplication :=
  if app.needResize then
    { app with needResize := false,
               swapChain := app.swapChain.Resize app.window.width app.window.height,
               uiCamera := (app.window.width, app.window.height) }
  else app

/-- Embedding of `EditorApplication::Render`, lines 154-169: the calls on the encoder. -/
def EditorApplication.Render.encode (app : EditorApplication) (enc : RenderCommandEncoder)
    (w : World) : World :=
  let w := enc.record EncoderCall.ClearRenderTarget w
  let w := enc.record EncoderCall.ClearDepthStencil w
  let w := enc.record (EncoderCall.SetViewport app.window.width app.window.height) w
  let w := enc.record (EncoderCall.SetScissorRect app.window.width app.window.height) w
  let w := enc.record EncoderCall.SetRenderTargets w
  let w := enc.record (EncoderCall.SetConstantBuffer 0) w
  let w := enc.record EncoderCall.SetVertexBuffer w
  let w := enc.record (EncoderCall.DrawPrimitives app.uiMeshVertices 2 0 2) w
  let w := enc.record EncoderCall.ImguiRender w
  enc.EndEncoding [app.swapChain.backBufferIndex] w

/-- Embedding of `EditorApplication::Render`, lines 150-172: create the command buffer,
record the pass, commit. -/
def EditorApplication.Render.frame (gpu : GpuProgress) (app : EditorApplication) :
    EditorApplication :=
  match CommandQueue.CreateCommandBuffer app.commandQueue
      (gpuRun app.commandQueue gpu.beforeCreate app.world) with
  | (w1, some commandBuffer) =>
    let w3 :=
      match commandBuffer.CreateRenderCommandEncoder app.renderPipeline w1 with
      | (w2, some renderCommandEncoder) => EditorApplication.Render.encode app renderCommandEncoder w2
      | (w2, none) => w2
    { app with world := commandBuffer.Commit (gpuRun app.commandQueue gpu.beforeCommit w3) }
  | (w1, none) => { app with world := w1 }

/-- Embedding of `EditorApplication::Render` (lines 141-176).  `none`: the tick never
returns. -/
def EditorApplication.Render (gpu : GpuProgress) (app : EditorApplication) :
    Option EditorApplication :=
  let app1 := EditorApplication.Render.resize app
  let app2 := EditorApplication.Render.frame gpu app1
  let app3 : EditorApplication := { app2 with swapChain := app2.swapChain.Present }
  match CommandQueue.WaitComplete app3.commandQueue
      (gpuRun app3.commandQueue gpu.beforeWait app3.world) with
  | none => none
  | some w => some { app3 with world := w }

/-- One turn of the game thread's loop as far as rendering goes: the platform
may first have delivered a resize notification (the window has its new size
and `OnResize` has run), then `Render` runs. -/
structure Tick where
  resized : Option (Nat × Nat)
  gpu : GpuProgress
deriving DecidableEq, Repr

/-- The resize notification of a tick. -/
def EditorApplication.notify (app : EditorApplication) : Option (Nat × Nat) → EditorApplication
  | none => app
  | some (width, height) =>
    EditorApplication.OnResize { app with window := { width := width, height := height } } width height

/-- Consecutive ticks. -/
def EditorApplication.runTicks : List Tick → EditorApplication → Option EditorApplication
  | [], app => some app
  | tick :: ticks, app =>
    match EditorApplication.Render tick.gpu (app.notify tick.resized) with
    | none => none
    | some app1 => EditorApplication.runTicks ticks app1

/-- The queue of the editor. -/
def EditorApplication.queue (app : EditorApplication) : CommandQueue :=
  app.world.queues app.commandQueue

/-! ## WMColor -/

/-- The members of `WMColor`, over exact arithmetic. -/
structure WMColor where
  r : ℚ
  g : ℚ
  b : ℚ
  a : ℚ
deriving DecidableEq

/-- The exact clamp of `x` to `[lo, hi]`, `min(max(x, lo), hi)`. -/
def exactClamp (x lo hi : ℚ) : ℚ := min (max x lo) hi

/-- Embedding of `WMColor::Clamp` (lines 39-46); `clamp` is `WildMini::Clamp`, which is
declared outside the sources. -/
def WMColor.Clamp (clamp : ℚ → ℚ → ℚ → ℚ) (c : WMColor) : WMColor :=
  { r := clamp c.r 0 1, g := clamp c.g 0 1, b := clamp c.b 0 1, a := clamp c.a 0 1 }

/-- Embedding of `WMColor::operator+` (lines 48-56). -/
def WMColor.add (clamp : ℚ → ℚ → ℚ → ℚ) (c color : WMColor) : WMColor :=
  WMColor.Clamp clamp { r := c.r + color.r, g := c.g + color.g, b := c.b + color.b, a := c.a + color.a }

/-- Embedding of `WMColor::operator-` (lines 58-66). -/
def WMColor.sub (clamp : ℚ → ℚ → ℚ → ℚ) (c color : WMColor) : WMColor :=
  WMColor.Clamp clamp { r := c.r - color.r, g := c.g - color.g, b := c.b - color.b, a := c.a - color.a }

/-- Embedding of `WMColor::operator*` (lines 68-76). -/
def WMColor.mul (clamp : ℚ → ℚ → ℚ → ℚ) (c : WMColor) (v : ℚ) : WMColor :=
  WMColor.Clamp clamp { r := c.r * v, g := c.g * v, b := c.b * v, a := c.a * v }

/-- Every component lies in `[0, 1]`. -/
def WMColor.InUnit (c : WMColor) : Prop :=
  (0 ≤ c.r ∧ c.r ≤ 1) ∧ (0 ≤ c.g ∧ c.g ≤ 1) ∧ (0 ≤ c.b ∧ c.b ≤ 1) ∧ (0 ≤ c.a ∧ c.a ≤ 1)

/-! ## Concrete states -/

/-- A world as the device leaves it after creating its objects: at every
address a queue fresh from its constructor, with an empty native queue and a
fence at 0, a closed empty list and an allocator never reset. -/
def World.initial : World :=
  { queues := fun _ => CommandQueue.new 0 [] 0 0 0,
    lists := fun _ => { state := ListState.Closed, recorded := [] },
    allocators := fun _ => { resets := 0 },
    osWaits := 0 }

/-- The fence value after the GPU has retired `cmds`, oldest first. -/
def completedAfter (cmds : List GpuCmd) (completed : Nat) : Nat :=
  cmds.foldl (fun c cmd => cmd.retire c) completed

/-- The accepted commands carry strictly increasing signals, all above the
completed value, and end with the signal of `fenceNumber`; when nothing is
pending the completed value is `fenceNumber`. -/
def InOrder : Nat → Nat → List GpuCmd → Prop
  | completed, fenceNumber, [] => completed = fenceNumber
  | completed, fenceNumber, GpuCmd.execute _ :: rest => rest ≠ [] ∧ InOrder completed fenceNumber rest
  | completed, fenceNumber, GpuCmd.signal value :: rest =>
    completed < value ∧ InOrder value fenceNumber rest

/-- Nothing is in flight on the queue and its fence has reached the counter
`n`. -/
def CommandQueue.Idle (q : CommandQueue) (n : Nat) : Prop :=
  q.commandQueue = [] ∧ q.fence = n ∧ q.fenceNumber = n

/-- The events that advance `fenceNumber`. -/
def QueueEvent.advances : QueueEvent → Bool
  | QueueEvent.ExecuteCommandLists _ => true
  | QueueEvent.WaitComplete => true
  | _ => false

/-- The events that are a call of `ExecuteCommandLists`. -/
def QueueEvent.isExecute : QueueEvent → Bool
  | QueueEvent.ExecuteCommandLists _ => true
  | _ => false

/-- The events that are a call of `WaitComplete`. -/
def QueueEvent.isWait : QueueEvent → Bool
  | QueueEvent.WaitComplete => true
  | _ => false

/-- The initial world with the counter of the queue at address 0 set to
`fenceNumber` and its fence to `completed`. -/
def World.atFence (fenceNumber completed : Nat) : World :=
  World.initial.setQueue 0 { CommandQueue.new 0 [] 0 0 completed with fenceNumber := fenceNumber }

/-- The buffer the queue at address 0 of the initial world hands out. -/
def CommandBuffer.first : CommandBuffer :=
  { type := D3D12_COMMAND_LIST_TYPE_DIRECT, commandQueue := 0, commandList := 0,
    commandAllocator := 0 }

/-- The editor as `OnInitialize` (lines 57-103) leaves it on the initial
world: a 1280 x 720 window, the queue at address 0, a swap chain on that queue
and window (here with two back buffers), the camera sized to the window, a
quad (here of six vertices) and no resize pending (constructor, line 47). -/
def EditorApplication.initial : EditorApplication :=
  { world := World.initial,
    window := { width := 1280, height := 720 },
    commandQueue := 0,
    swapChain := { device := 0, commandQueue := 0, window := { width := 1280, height := 720 },
                   width := 1280, height := 720, bufferCount := 2, backBufferIndex := 0,
                   resizeCalls := [], presents := 0 },
    renderPipeline := { pipelineState := 0 },
    uiCamera := (1280, 720),
    uiMeshVertices := 6,
    needResize := false }

/-- A tick without a resize notification in which the GPU retires nothing
unless the thread waits for it. -/
def Tick.idle : Tick :=
  { resized := none, gpu := { beforeCreate := 0, beforeCommit := 0, beforeWait := 0 } }

/-! ## Basic facts -/

@[simp]
theorem setQueue_queues_self (w : World) (self : Nat) (q : CommandQueue) :
    (w.setQueue self q).queues self = q := by
  simp [World.setQueue]

@[simp]
theorem setQueue_queues_other (w : World) (self other : Nat) (q : CommandQueue)
    (h : other ≠ self) : (w.setQueue self q).queues other = w.queues other := by
  simp [World.setQueue, Function.update_noteq h]

@[simp]
theorem setQueue_lists (w : World) (self : Nat) (q : CommandQueue) :
    (w.setQueue self q).lists = w.lists := rfl

@[simp]
theorem setQueue_allocators (w : World) (self : Nat) (q : CommandQueue) :
    (w.setQueue self q).allocators = w.allocators := rfl

@[simp]
theorem setQueue_osWaits (w : World) (self : Nat) (q : CommandQueue) :
    (w.setQueue self q).osWaits = w.osWaits := rfl

theorem uint64_succ_lt (n : Nat) : (n + 1) % UINT64_RANGE < UINT64_RANGE :=
  Nat.mod_lt _ (by decide)

/-! ### ExecuteCommandLists -/

theorem execute_queue (self : Nat) (commandLists : List Nat) (w : World) :
    ((CommandQueue.ExecuteCommandLists self commandLists w).1.queues self) =
      { w.queues self with
        fenceNumber := ((w.queues self).fenceNumber + 1) % UINT64_RANGE,
        commandQueue := (w.queues self).commandQueue ++
          [GpuCmd.execute (commandLists.map fun l => (l, (w.lists l).state)),
           GpuCmd.signal (((w.queues self).fenceNumber + 1) % UINT64_RANGE)] } := by
  simp [CommandQueue.ExecuteCommandLists]

theorem execute_returned (self : Nat) (commandLists : List Nat) (w : World) :
    (CommandQueue.ExecuteCommandLists self commandLists w).2 =
      ((w.queues self).fenceNumber + 1) % UINT64_RANGE := rfl

theorem execute_other (self other : Nat) (commandLists : List Nat) (w : World) (h : other ≠ self) :
    (CommandQueue.ExecuteCommandLists self commandLists w).1.queues other = w.queues other := by
  simp [CommandQueue.ExecuteCommandLists, h]

theorem execute_lists (self : Nat) (commandLists : List Nat) (w : World) :
    (CommandQueue.ExecuteCommandLists self commandLists w).1.lists = w.lists := rfl

theorem execute_allocators (self : Nat) (commandLists : List Nat) (w : World) :
    (CommandQueue.ExecuteCommandLists self commandLists w).1.allocators = w.allocators := rfl

/-! ### The waiting thread -/

theorem completedAfter_cons (c : GpuCmd) (cmds : List GpuCmd) (completed : Nat) :
    completedAfter (c :: cmds) completed = completedAfter cmds (c.retire completed) := rfl

/-- The wait returns in the first state of the GPU's progress whose completed
value has reached the target. -/
theorem awaitFence_first (target : Nat) :
    ∀ (pending : List GpuCmd) (completed : Nat) (pending1 : List GpuCmd) (completed1 : Nat),
      awaitFence target pending completed = some (pending1, completed1) →
      ∃ k, k ≤ pending.length ∧ pending1 = pending.drop k ∧
        completed1 = completedAfter (pending.take k) completed ∧ target ≤ completed1 ∧
        ∀ j, j < k → completedAfter (pending.take j) completed < target := by
  intro pending
  induction pending with
  | nil =>
    intro completed pending1 completed1 h
    by_cases hc : target ≤ completed
    · simp [awaitFence, hc] at h
      refine ⟨0, by simp, by simp [h.1], by simp [completedAfter, h.2], by omega, by simp⟩
    · simp [awaitFence, hc] at h
  | cons c rest ih =>
    intro completed pending1 completed1 h
    by_cases hc : target ≤ completed
    · simp [awaitFence, hc] at h
      refine ⟨0, by simp, by simp [h.1], by simp [completedAfter, h.2], by omega, by simp⟩
    · simp only [awaitFence, hc, if_false] at h
      obtain ⟨k, hk, hp, hcomp, hle, hmin⟩ := ih _ _ _ h
      refine ⟨k + 1, by simpa using hk, by simpa using hp, by simpa [completedAfter_cons] using hcomp,
        hle, ?_⟩
      intro j hj
      cases j with
      | zero => simpa [completedAfter] using Nat.lt_of_not_le hc
      | succ j =>
        have := hmin j (by omega)
        simpa [completedAfter_cons] using this

/-- A wait for a value whose signal is among the accepted commands returns. -/
theorem awaitFence_signalled (target : Nat) :
    ∀ (pending tail : List GpuCmd) (completed : Nat),
      ∃ r, awaitFence target (pending ++ GpuCmd.signal target :: tail) completed = some r := by
  intro pending
  induction pending with
  | nil =>
    intro tail completed
    by_cases hc : target ≤ completed
    · exact ⟨(GpuCmd.signal target :: tail, completed), by simp [awaitFence, hc]⟩
    · cases tail <;> simp [awaitFence, hc, GpuCmd.retire]
  | cons c rest ih =>
    intro tail completed
    by_cases hc : target ≤ completed
    · exact ⟨(c :: (rest ++ GpuCmd.signal target :: tail), completed), by simp [awaitFence, hc]⟩
    · obtain ⟨r, hr⟩ := ih tail (c.retire completed)
      exact ⟨r, by simp [awaitFence, hc, hr]⟩

/-! ### WaitComplete -/

theorem waitComplete_returns (self : Nat) (w : World) :
    ∃ w1, CommandQueue.WaitComplete self w = some w1 := by
  unfold CommandQueue.WaitComplete
  simp only
  split
  · obtain ⟨r, hr⟩ := awaitFence_signalled (((w.queues self).fenceNumber + 1) % UINT64_RANGE)
      (w.queues self).commandQueue [] (w.queues self).fence
    rw [hr]
    exact ⟨_, rfl⟩
  · exact ⟨_, rfl⟩

/-- What a returned `WaitComplete` has done. -/
theorem waitComplete_spec (self : Nat) (w w1 : World)
    (h : CommandQueue.WaitComplete self w = some w1) :
    (w1.queues self).fenceNumber = ((w.queues self).fenceNumber + 1) % UINT64_RANGE ∧
    (w1.queues self).device = (w.queues self).device ∧
    (w1.queues self).commandAllocator = (w.queues self).commandAllocator ∧
    (w1.queues self).commandList = (w.queues self).commandList ∧
    (∃ k, k ≤ (w.queues self).commandQueue.length + 1 ∧
      (w1.queues self).commandQueue =
        ((w.queues self).commandQueue ++
          [GpuCmd.signal (((w.queues self).fenceNumber + 1) % UINT64_RANGE)]).drop k ∧
      (w1.queues self).fence =
        completedAfter (((w.queues self).commandQueue ++
          [GpuCmd.signal (((w.queues self).fenceNumber + 1) % UINT64_RANGE)]).take k)
          (w.queues self).fence ∧
      (k = 0 ↔ ¬ (w.queues self).fence < ((w.queues self).fenceNumber + 1) % UINT64_RANGE) ∧
      ∀ j, j < k →
        completedAfter (((w.queues self).commandQueue ++
          [GpuCmd.signal (((w.queues self).fenceNumber + 1) % UINT64_RANGE)]).take j)
          (w.queues self).fence < ((w.queues self).fenceNumber + 1) % UINT64_RANGE) ∧
    ((w.queues self).fenceNumber + 1) % UINT64_RANGE ≤ (w1.queues self).fence ∧
    w1.osWaits = w.osWaits +
      (if (w.queues self).fence < ((w.queues self).fenceNumber + 1) % UINT64_RANGE then 1 else 0) ∧
    (∀ other, other ≠ self → w1.queues other = w.queues other) ∧
    w1.lists = w.lists ∧ w1.allocators = w.allocators := by
  unfold CommandQueue.WaitComplete at h
  simp only at h
  by_cases hlt : (w.queues self).fence < ((w.queues self).fenceNumber + 1) % UINT64_RANGE
  · rw [if_pos hlt] at h
    cases hr : awaitFence (((w.queues self).fenceNumber + 1) % UINT64_RANGE)
        ((w.queues self).commandQueue ++
          [GpuCmd.signal (((w.queues self).fenceNumber + 1) % UINT64_RANGE)])
        (w.queues self).fence with
    | none => rw [hr] at h; simp at h
    | some r =>
      obtain ⟨pending, completed⟩ := r
      rw [hr] at h
      simp only [Option.some.injEq] at h
      obtain ⟨k, hk, hp, hc, hle, hmin⟩ := awaitFence_first _ _ _ _ _ hr
      subst h
      refine ⟨by simp, by simp, by simp, by simp, ⟨k, by simpa using hk, by simpa using hp,
        by simpa using hc, ?_, hmin⟩, by simpa using hle, by simp [hlt], ?_, rfl, rfl⟩
      · constructor
        · intro hk0
          subst hk0
          simp [completedAfter] at hc
          omega
        · intro hn
          exact absurd hlt hn
      · intro other ho
        simp [ho]
  · rw [if_neg hlt] at h
    simp only [Option.some.injEq] at h
    subst h
    refine ⟨by simp, by simp, by simp, by simp, ⟨0, by simp, by simp, by simp [completedAfter],
      by simp [hlt], by simp⟩, by simpa using Nat.le_of_not_lt hlt, by simp [hlt], ?_, rfl, rfl⟩
    intro other ho
    simp [ho]

/-! ### CreateCommandBuffer, CreateSwapChain, GPU events -/

theorem createCommandBuffer_queues (self : Nat) (w : World) :
    (CommandQueue.CreateCommandBuffer self w).1.queues = w.queues := rfl

theorem createCommandBuffer_buffer (self : Nat) (w : World) :
    (CommandQueue.CreateCommandBuffer self w).2 =
      some { type := D3D12_COMMAND_LIST_TYPE_DIRECT, commandQueue := self,
             commandList := (w.queues self).commandList,
             commandAllocator := (w.queues self).commandAllocator } := rfl

theorem createSwapChain_world (self : Nat) (window : Window) (bufferCount : Nat) (w : World) :
    (CommandQueue.CreateSwapChain self window bufferCount w).1 = w := rfl

theorem gpuFinish_queue (self : Nat) (w : World) :
    (gpuFinish self w).queues self =
      { w.queues self with
        commandQueue := (w.queues self).commandQueue.drop 1,
        fence := completedAfter ((w.queues self).commandQueue.take 1) (w.queues self).fence } := by
  unfold gpuFinish
  simp only
  split
  next h =>
    simp only [h, completedAfter, List.drop_nil, List.take_nil, List.foldl_nil]
    rw [← h]
  next c rest h => simp [h, completedAfter]

theorem gpuFinish_fenceNumber (self : Nat) (w : World) :
    ((gpuFinish self w).queues self).fenceNumber = (w.queues self).fenceNumber := by
  rw [gpuFinish_queue]

theorem gpuFinish_other (self other : Nat) (w : World) (h : other ≠ self) :
    (gpuFinish self w).queues other = w.queues other := by
  unfold gpuFinish
  simp only
  split <;> simp [h]

theorem gpuFinish_lists (self : Nat) (w : World) : (gpuFinish self w).lists = w.lists := by
  unfold gpuFinish
  simp only
  split <;> rfl

theorem gpuFinish_allocators (self : Nat) (w : World) :
    (gpuFinish self w).allocators = w.allocators := by
  unfold gpuFinish
  simp only
  split <;> rfl

theorem gpuFinish_osWaits (self : Nat) (w : World) : (gpuFinish self w).osWaits = w.osWaits := by
  unfold gpuFinish
  simp only
  split <;> rfl

theorem gpuRun_queue (self : Nat) : ∀ (n : Nat) (w : World),
    (gpuRun self n w).queues self =
      { w.queues self with
        commandQueue := (w.queues self).commandQueue.drop n,
        fence := completedAfter ((w.queues self).commandQueue.take n) (w.queues self).fence } := by
  intro n
  induction n with
  | zero => intro w; simp [gpuRun, completedAfter]
  | succ n ih =>
    intro w
    rw [gpuRun, ih, gpuFinish_queue]
    cases h : (w.queues self).commandQueue with
    | nil => simp [completedAfter]
    | cons c rest => simp [completedAfter]

theorem gpuRun_lists (self : Nat) : ∀ (n : Nat) (w : World), (gpuRun self n w).lists = w.lists := by
  intro n
  induction n with
  | zero => intro w; rfl
  | succ n ih => intro w; rw [gpuRun, ih, gpuFinish_lists]

theorem gpuRun_allocators (self : Nat) : ∀ (n : Nat) (w : World),
    (gpuRun self n w).allocators = w.allocators := by
  intro n
  induction n with
  | zero => intro w; rfl
  | succ n ih => intro w; rw [gpuRun, ih, gpuFinish_allocators]

/-! ### Sequences of events -/

/-- While the counter does not wrap, it counts the advancing events, and every
value `ExecuteCommandLists` returned lies above the counter the run started
from and at or below the counter it ended with. -/
theorem runEvents_returned_bounds (self : Nat) : ∀ (events : List QueueEvent) (w w1 : World)
    (returned : List Nat), runEvents self events w = some (w1, returned) →
    (w.queues self).fenceNumber + events.countP QueueEvent.advances < UINT64_RANGE →
    (w1.queues self).fenceNumber =
      (w.queues self).fenceNumber + events.countP QueueEvent.advances ∧
    ∀ v, v ∈ returned → (w.queues self).fenceNumber < v ∧ v ≤ (w1.queues self).fenceNumber := by
  intro events
  induction events with
  | nil =>
    intro w w1 returned h _
    simp [runEvents] at h
    obtain ⟨h1, h2⟩ := h
    subst h1 h2
    simp
  | cons e rest ih =>
    intro w w1 returned h hroom
    cases e with
    | CreateCommandBuffer =>
      simp only [runEvents] at h
      simpa [QueueEvent.advances, createCommandBuffer_queues] using
        ih _ _ _ h (by simpa [QueueEvent.advances, createCommandBuffer_queues] using hroom)
    | CreateSwapChain window bufferCount =>
      simp only [runEvents] at h
      simpa [QueueEvent.advances, createSwapChain_world] using
        ih _ _ _ h (by simpa [QueueEvent.advances, createSwapChain_world] using hroom)
    | ExecuteCommandLists commandLists =>
      simp only [QueueEvent.advances, List.countP_cons_of_pos] at hroom ⊢
      simp only [runEvents] at h
      cases hr : runEvents self rest (CommandQueue.ExecuteCommandLists self commandLists w).1 with
      | none => simp [hr] at h
      | some r =>
        obtain ⟨w2, returned2⟩ := r
        simp only [hr, Option.some.injEq, Prod.mk.injEq] at h
        obtain ⟨hw, hret⟩ := h
        subst hw
        have hnext : ((w.queues self).fenceNumber + 1) % UINT64_RANGE
            = (w.queues self).fenceNumber + 1 := Nat.mod_eq_of_lt (by omega)
        have hfn : ((CommandQueue.ExecuteCommandLists self commandLists w).1.queues self).fenceNumber
            = (w.queues self).fenceNumber + 1 := by rw [execute_queue]; exact hnext
        obtain ⟨h1, h2⟩ := ih _ _ _ hr (by rw [hfn]; omega)
        rw [hfn] at h1 h2
        refine ⟨by omega, ?_⟩
        intro v hv
        rw [← hret] at hv
        rcases List.mem_cons.mp hv with hv | hv
        · rw [hv, execute_returned, hnext]; omega
        · have := h2 v hv
          omega
    | WaitComplete =>
      simp only [QueueEvent.advances, List.countP_cons_of_pos] at hroom ⊢
      simp only [runEvents] at h
      cases hw : CommandQueue.WaitComplete self w with
      | none => simp [hw] at h
      | some w2 =>
        simp only [hw] at h
        have hfn : (w2.queues self).fenceNumber = (w.queues self).fenceNumber + 1 := by
          rw [(waitComplete_spec self w w2 hw).1]
          exact Nat.mod_eq_of_lt (by omega)
        obtain ⟨h1, h2⟩ := ih _ _ _ h (by rw [hfn]; omega)
        rw [hfn] at h1 h2
        refine ⟨by omega, ?_⟩
        intro v hv
        have := h2 v hv
        omega
    | GpuFinish =>
      simp only [runEvents] at h
      simpa [QueueEvent.advances, gpuFinish_fenceNumber] using
        ih _ _ _ h (by simpa [QueueEvent.advances, gpuFinish_fenceNumber] using hroom)

/-- Events other than `ExecuteCommandLists` return no fence value, and leave
the counter advanced by the number of `WaitComplete` calls. -/
theorem runEvents_no_execute (self : Nat) : ∀ (events : List QueueEvent) (w : World),
    (∀ e, e ∈ events → e.isExecute = false) →
    (w.queues self).fenceNumber < UINT64_RANGE →
    ∃ w1, runEvents self events w = some (w1, []) ∧
      (w1.queues self).fenceNumber =
        ((w.queues self).fenceNumber + events.countP QueueEvent.isWait) % UINT64_RANGE := by
  intro events
  induction events with
  | nil =>
    intro w _ hlt
    exact ⟨w, rfl, by simp [Nat.mod_eq_of_lt hlt]⟩
  | cons e rest ih =>
    intro w hno hlt
    have hrest : ∀ e, e ∈ rest → e.isExecute = false := fun e he => hno e (List.mem_cons_of_mem _ he)
    cases e with
    | CreateCommandBuffer =>
      obtain ⟨w1, h1, h2⟩ := ih (CommandQueue.CreateCommandBuffer self w).1 hrest
        (by simpa [createCommandBuffer_queues] using hlt)
      exact ⟨w1, by simpa [runEvents] using h1,
        by simpa [QueueEvent.isWait, createCommandBuffer_queues] using h2⟩
    | CreateSwapChain window bufferCount =>
      obtain ⟨w1, h1, h2⟩ := ih (CommandQueue.CreateSwapChain self window bufferCount w).1 hrest
        (by simpa [createSwapChain_world] using hlt)
      exact ⟨w1, by simpa [runEvents] using h1,
        by simpa [QueueEvent.isWait, createSwapChain_world] using h2⟩
    | ExecuteCommandLists commandLists =>
      have := hno (QueueEvent.ExecuteCommandLists commandLists) (List.mem_cons_self _ _)
      simp [QueueEvent.isExecute] at this
    | WaitComplete =>
      obtain ⟨w2, hw2⟩ := waitComplete_returns self w
      have hfn := (waitComplete_spec self w w2 hw2).1
      obtain ⟨w1, h1, h2⟩ := ih w2 hrest (by rw [hfn]; exact uint64_succ_lt _)
      refine ⟨w1, by simp [runEvents, hw2, h1], ?_⟩
      rw [h2, hfn]
      simp only [QueueEvent.isWait, List.countP_cons_of_pos]
      rw [Nat.mod_add_mod]
      congr 1
      omega
    | GpuFinish =>
      obtain ⟨w1, h1, h2⟩ := ih (gpuFinish self w) hrest
        (by simpa [gpuFinish_fenceNumber] using hlt)
      exact ⟨w1, by simpa [runEvents] using h1,
        by simpa [QueueEvent.isWait, gpuFinish_fenceNumber] using h2⟩

theorem runEvents_append (self : Nat) : ∀ (xs ys : List QueueEvent) (w w1 w2 : World)
    (r1 r2 : List Nat), runEvents self xs w = some (w1, r1) →
    runEvents self ys w1 = some (w2, r2) →
    runEvents self (xs ++ ys) w = some (w2, r1 ++ r2) := by
  intro xs
  induction xs with
  | nil =>
    intro ys w w1 w2 r1 r2 h1 h2
    simp [runEvents] at h1
    simp [← h1.2, h1.1, h2]
  | cons e rest ih =>
    intro ys w w1 w2 r1 r2 h1 h2
    cases e with
    | CreateCommandBuffer =>
      simp only [runEvents] at h1
      simpa [runEvents] using ih ys _ _ _ _ _ h1 h2
    | CreateSwapChain window bufferCount =>
      simp only [runEvents] at h1
      simpa [runEvents] using ih ys _ _ _ _ _ h1 h2
    | ExecuteCommandLists commandLists =>
      simp only [runEvents] at h1
      cases hr : runEvents self rest (CommandQueue.ExecuteCommandLists self commandLists w).1 with
      | none => simp [hr] at h1
      | some r =>
        obtain ⟨w3, r3⟩ := r
        simp only [hr, Option.some.injEq, Prod.mk.injEq] at h1
        obtain ⟨hw, hret⟩ := h1
        subst hw
        have := ih ys _ _ _ _ _ hr h2
        simp [runEvents, this, ← hret]
    | WaitComplete =>
      simp only [runEvents] at h1
      cases hw : CommandQueue.WaitComplete self w with
      | none => simp [hw] at h1
      | some w3 =>
        simp only [hw] at h1
        have := ih ys _ _ _ _ _ h1 h2
        simp [runEvents, hw, this]
    | GpuFinish =>
      simp only [runEvents] at h1
      simpa [runEvents] using ih ys _ _ _ _ _ h1 h2

/-! ### The encoder -/

theorem commit_eq (cb : CommandBuffer) (w : World) :
    cb.Commit w = (CommandQueue.ExecuteCommandLists cb.commandQueue [cb.commandList] w).1 := rfl

theorem record_queues (enc : RenderCommandEncoder) (call : EncoderCall) (w : World) :
    (enc.record call w).queues = w.queues := rfl

theorem record_allocators (enc : RenderCommandEncoder) (call : EncoderCall) (w : World) :
    (enc.record call w).allocators = w.allocators := rfl

theorem record_state (enc : RenderCommandEncoder) (call : EncoderCall) (w : World) (l : Nat) :
    ((enc.record call w).lists l).state = (w.lists l).state := by
  unfold RenderCommandEncoder.record
  by_cases h : l = enc.commandList
  · subst h; simp
  · simp [Function.update_noteq h]

theorem recordAll_queues (enc : RenderCommandEncoder) : ∀ (calls : List EncoderCall) (w : World),
    (enc.recordAll calls w).queues = w.queues := by
  intro calls
  induction calls with
  | nil => intro w; rfl
  | cons c rest ih => intro w; rw [RenderCommandEncoder.recordAll, ih, record_queues]

theorem endEncoding_queues (enc : RenderCommandEncoder) (targets : List Nat) (w : World) :
    (enc.EndEncoding targets w).queues = w.queues := rfl

theorem endEncoding_state (enc : RenderCommandEncoder) (targets : List Nat) (w : World) :
    ((enc.EndEncoding targets w).lists enc.commandList).state = ListState.Closed := by
  simp [RenderCommandEncoder.EndEncoding, GraphicsCommandList.Close]

theorem createEncoder_queues (cb : CommandBuffer) (p : RenderPipeline) (w : World) :
    (cb.CreateRenderCommandEncoder p w).1.queues = w.queues := rfl

theorem createEncoder_allocators (cb : CommandBuffer) (p : RenderPipeline) (w : World) :
    (cb.CreateRenderCommandEncoder p w).1.allocators = w.allocators := rfl

theorem createEncoder_encoder (cb : CommandBuffer) (p : RenderPipeline) (w : World) :
    (cb.CreateRenderCommandEncoder p w).2 =
      some { renderPipeline := p, commandBuffer := cb, commandList := cb.commandList } := rfl

theorem reset_state (l : GraphicsCommandList) : l.Reset.state = ListState.Open := by
  unfold GraphicsCommandList.Reset
  cases h : l.state <;> simp [h]

theorem createEncoder_state (cb : CommandBuffer) (p : RenderPipeline) (w : World) :
    ((cb.CreateRenderCommandEncoder p w).1.lists cb.commandList).state = ListState.Open := by
  simp [CommandBuffer.CreateRenderCommandEncoder, reset_state]

theorem addEncoded_commandQueue : ∀ (encoded : List Nat) (cb : CommandBuffer),
    (encoded.foldl CommandBuffer.AddEncodedCommandList cb).commandQueue = cb.commandQueue := by
  intro encoded
  induction encoded with
  | nil => intro cb; rfl
  | cons l rest ih => intro cb; rw [List.foldl_cons, ih]; rfl

theorem addEncoded_commandList : ∀ (encoded : List Nat) (cb : CommandBuffer),
    (encoded.foldl CommandBuffer.AddEncodedCommandList cb).commandList =
      (encoded.getLast?).getD cb.commandList := by
  intro encoded
  induction encoded with
  | nil => intro cb; rfl
  | cons l rest ih =>
    intro cb
    rw [List.foldl_cons, ih]
    cases rest with
    | nil => rfl
    | cons l1 rest1 =>
      rw [List.getLast?_cons_cons, List.getLast?_eq_getLast (l1 :: rest1) (by simp)]
      rfl

/-! ### The render tick -/

theorem encode_queues (app : EditorApplication) (enc : RenderCommandEncoder) (w : World) :
    (EditorApplication.Render.encode app enc w).queues = w.queues := rfl

theorem encode_allocators (app : EditorApplication) (enc : RenderCommandEncoder) (w : World) :
    (EditorApplication.Render.encode app enc w).allocators = w.allocators := rfl

theorem encode_state (app : EditorApplication) (enc : RenderCommandEncoder) (w : World) :
    ((EditorApplication.Render.encode app enc w).lists enc.commandList).state = ListState.Closed := by
  unfold EditorApplication.Render.encode
  exact endEncoding_state _ _ _

/-- Lines 150-172 unfolded: the world after the frame is the commit of the
created buffer on the world the encoder left. -/
theorem frame_world (gpu : GpuProgress) (app : EditorApplication) :
    (EditorApplication.Render.frame gpu app).world =
      CommandBuffer.Commit
        { type := D3D12_COMMAND_LIST_TYPE_DIRECT, commandQueue := app.commandQueue,
          commandList := ((gpuRun app.commandQueue gpu.beforeCreate app.world).queues
            app.commandQueue).commandList,
          commandAllocator := ((gpuRun app.commandQueue gpu.beforeCreate app.world).queues
            app.commandQueue).commandAllocator }
        (gpuRun app.commandQueue gpu.beforeCommit
          (EditorApplication.Render.encode app
            { renderPipeline := app.renderPipeline,
              commandBuffer :=
                { type := D3D12_COMMAND_LIST_TYPE_DIRECT, commandQueue := app.commandQueue,
                  commandList := ((gpuRun app.commandQueue gpu.beforeCreate app.world).queues
                    app.commandQueue).commandList,
                  commandAllocator := ((gpuRun app.commandQueue gpu.beforeCreate app.world).queues
                    app.commandQueue).commandAllocator },
              commandList := ((gpuRun app.commandQueue gpu.beforeCreate app.world).queues
                app.commandQueue).commandList }
            (CommandBuffer.CreateRenderCommandEncoder
              { type := D3D12_COMMAND_LIST_TYPE_DIRECT, commandQueue := app.commandQueue,
                commandList := ((gpuRun app.commandQueue gpu.beforeCreate app.world).queues
                  app.commandQueue).commandList,
                commandAllocator := ((gpuRun app.commandQueue gpu.beforeCreate app.world).queues
                  app.commandQueue).commandAllocator }
              app.renderPipeline
              (CommandQueue.CreateCommandBuffer app.commandQueue
                (gpuRun app.commandQueue gpu.beforeCreate app.world)).1).1)) := rfl

/-- The queue after lines 150-172: the GPU has retired what it got to, and the
native queue has accepted the tick's list, closed, and a signal of the next
counter value. -/
theorem frame_queue (gpu : GpuProgress) (app : EditorApplication) :
    (EditorApplication.Render.frame gpu app).world.queues app.commandQueue =
      { app.queue with
        commandQueue :=
          (app.queue.commandQueue.drop gpu.beforeCreate).drop gpu.beforeCommit ++
            [GpuCmd.execute [(app.queue.commandList, ListState.Closed)],
             GpuCmd.signal ((app.queue.fenceNumber + 1) % UINT64_RANGE)],
        fence := completedAfter ((app.queue.commandQueue.drop gpu.beforeCreate).take gpu.beforeCommit)
          (completedAfter (app.queue.commandQueue.take gpu.beforeCreate) app.queue.fence),
        fenceNumber := (app.queue.fenceNumber + 1) % UINT64_RANGE } := by
  rw [frame_world, commit_eq]
  simp only [execute_queue, gpuRun_queue, gpuRun_lists, encode_queues, createEncoder_queues,
    createCommandBuffer_queues, List.map_cons, List.map_nil]
  rw [encode_state]
  rfl

theorem frame_commandQueue (gpu : GpuProgress) (app : EditorApplication) :
    (EditorApplication.Render.frame gpu app).commandQueue = app.commandQueue := rfl

theorem frame_swapChain (gpu : GpuProgress) (app : EditorApplication) :
    (EditorApplication.Render.frame gpu app).swapChain = app.swapChain := rfl

theorem frame_allocators (gpu : GpuProgress) (app : EditorApplication) :
    (EditorApplication.Render.frame gpu app).world.allocators =
      Function.update app.world.allocators app.queue.commandAllocator
        (app.world.allocators app.queue.commandAllocator).Reset := by
  rw [frame_world, commit_eq, execute_allocators, gpuRun_allocators, encode_allocators,
    createEncoder_allocators]
  simp only [CommandQueue.CreateCommandBuffer, gpuRun_allocators, gpuRun_queue]
  rfl

theorem resize_world (app : EditorApplication) :
    (EditorApplication.Render.resize app).world = app.world := by
  unfold EditorApplication.Render.resize
  split <;> rfl

theorem resize_commandQueue (app : EditorApplication) :
    (EditorApplication.Render.resize app).commandQueue = app.commandQueue := by
  unfold EditorApplication.Render.resize
  split <;> rfl

theorem resize_queue (app : EditorApplication) :
    (EditorApplication.Render.resize app).queue = app.queue := by
  unfold EditorApplication.queue
  rw [resize_world, resize_commandQueue]

theorem resize_needResize (app : EditorApplication) :
    (EditorApplication.Render.resize app).needResize = false := by
  unfold EditorApplication.Render.resize
  split
  · rfl
  · next h => simpa using h

theorem notify_world (app : EditorApplication) (r : Option (Nat × Nat)) :
    (app.notify r).world = app.world := by
  cases r <;> rfl

theorem notify_commandQueue (app : EditorApplication) (r : Option (Nat × Nat)) :
    (app.notify r).commandQueue = app.commandQueue := by
  cases r <;> rfl

theorem notify_queue (app : EditorApplication) (r : Option (Nat × Nat)) :
    (app.notify r).queue = app.queue := by
  cases r <;> rfl

/-- A tick returns; what it returns is the frame, presented, after the wait. -/
theorem render_returns (gpu : GpuProgress) (app : EditorApplication) :
    ∃ app1, EditorApplication.Render gpu app = some app1 ∧
      CommandQueue.WaitComplete app.commandQueue
        (gpuRun app.commandQueue gpu.beforeWait
          (EditorApplication.Render.frame gpu (EditorApplication.Render.resize app)).world) =
        some app1.world ∧
      app1.commandQueue = app.commandQueue ∧
      app1.swapChain = (EditorApplication.Render.resize app).swapChain.Present ∧
      app1.needResize = false ∧
      app1.window = app.window := by
  obtain ⟨w, hw⟩ := waitComplete_returns app.commandQueue
    (gpuRun app.commandQueue gpu.beforeWait
      (EditorApplication.Render.frame gpu (EditorApplication.Render.resize app)).world)
  refine ⟨{ EditorApplication.Render.frame gpu (EditorApplication.Render.resize app) with
            swapChain := (EditorApplication.Render.resize app).swapChain.Present, world := w },
    ?_, hw, ?_, rfl, ?_, ?_⟩
  · unfold EditorApplication.Render
    simp only [frame_commandQueue, resize_commandQueue, frame_swapChain]
    rw [hw]
  · exact resize_commandQueue app
  · exact resize_needResize app
  · show (EditorApplication.Render.resize app).window = app.window
    unfold EditorApplication.Render.resize
    split <;> rfl

/-! ### Commands in order -/

theorem inOrder_le : ∀ (pending : List GpuCmd) (completed fenceNumber : Nat),
    InOrder completed fenceNumber pending → completed ≤ fenceNumber := by
  intro pending
  induction pending with
  | nil => intro c fn h; simp [InOrder] at h; omega
  | cons cmd rest ih =>
    intro c fn h
    cases cmd with
    | execute lists => exact ih _ _ h.2
    | signal value =>
      have := ih _ _ h.2
      have := h.1
      omega

theorem inOrder_nil_of_le : ∀ (pending : List GpuCmd) (completed fenceNumber : Nat),
    InOrder completed fenceNumber pending → fenceNumber ≤ completed → pending = [] := by
  intro pending
  induction pending with
  | nil => intro c fn _ _; rfl
  | cons cmd rest ih =>
    intro c fn h hle
    cases cmd with
    | execute lists => exact absurd (ih _ _ h.2 hle) h.1
    | signal value =>
      have := inOrder_le _ _ _ h.2
      have := h.1
      omega

theorem inOrder_append_signal : ∀ (pending : List GpuCmd) (completed fenceNumber value : Nat),
    InOrder completed fenceNumber pending → fenceNumber < value →
    InOrder completed value (pending ++ [GpuCmd.signal value]) := by
  intro pending
  induction pending with
  | nil =>
    intro c fn v h hlt
    simp only [InOrder] at h
    simp only [List.nil_append, InOrder, and_true]
    omega
  | cons cmd rest ih =>
    intro c fn v h hlt
    cases cmd with
    | execute lists => exact ⟨by simp, ih _ _ _ h.2 hlt⟩
    | signal value => exact ⟨h.1, ih _ _ _ h.2 hlt⟩

theorem inOrder_drop : ∀ (k : Nat) (pending : List GpuCmd) (completed fenceNumber : Nat),
    InOrder completed fenceNumber pending →
    InOrder (completedAfter (pending.take k) completed) fenceNumber (pending.drop k) := by
  intro k
  induction k with
  | zero => intro p c fn h; simpa [completedAfter] using h
  | succ k ih =>
    intro p c fn h
    cases p with
    | nil => simpa [completedAfter] using h
    | cons cmd rest =>
      cases cmd with
      | execute lists => simpa [completedAfter_cons, GpuCmd.retire] using ih _ _ _ h.2
      | signal value => simpa [completedAfter_cons, GpuCmd.retire] using ih _ _ _ h.2

/-- Waiting for the counter on commands in order ends with nothing pending and
the fence at the counter. -/
theorem awaitFence_inOrder : ∀ (pending : List GpuCmd) (completed fenceNumber : Nat),
    InOrder completed fenceNumber pending →
    awaitFence fenceNumber pending completed = some ([], fenceNumber) := by
  intro pending
  induction pending with
  | nil =>
    intro c fn h
    simp only [InOrder] at h
    simp [awaitFence, h]
  | cons cmd rest ih =>
    intro c fn h
    have hlt : ¬ fn ≤ c := by
      intro hle
      have := inOrder_nil_of_le _ _ _ h hle
      simp at this
    cases cmd with
    | execute lists => simpa [awaitFence, hlt, GpuCmd.retire] using ih _ _ h.2
    | signal value => simpa [awaitFence, hlt, GpuCmd.retire] using ih _ _ h.2

/-- Calling `WaitComplete` on a queue whose commands are in order, short of the wrap of
the counter, leaves the queue idle at the next counter value. -/
theorem waitComplete_inOrder (self : Nat) (w w1 : World)
    (hw : CommandQueue.WaitComplete self w = some w1)
    (hord : InOrder (w.queues self).fence (w.queues self).fenceNumber (w.queues self).commandQueue)
    (hroom : (w.queues self).fenceNumber + 1 < UINT64_RANGE) :
    (w1.queues self).Idle ((w.queues self).fenceNumber + 1) := by
  have hnext := Nat.mod_eq_of_lt hroom
  have hle := inOrder_le _ _ _ hord
  have hord1 := inOrder_append_signal _ _ _ ((w.queues self).fenceNumber + 1) hord (by omega)
  have hawait := awaitFence_inOrder _ _ _ hord1
  unfold CommandQueue.WaitComplete at hw
  simp only [hnext] at hw
  rw [if_pos (by omega), hawait] at hw
  simp only [Option.some.injEq] at hw
  subst hw
  simp [CommandQueue.Idle]

/-- Calling `WaitComplete` when the completed value is not below the next counter
value: the signal is queued and the call returns at once. -/
theorem waitComplete_nowait (self : Nat) (w : World)
    (h : ¬ (w.queues self).fence < ((w.queues self).fenceNumber + 1) % UINT64_RANGE) :
    CommandQueue.WaitComplete self w =
      some (w.setQueue self { w.queues self with
        fenceNumber := ((w.queues self).fenceNumber + 1) % UINT64_RANGE,
        commandQueue := (w.queues self).commandQueue ++
          [GpuCmd.signal (((w.queues self).fenceNumber + 1) % UINT64_RANGE)] }) := by
  unfold CommandQueue.WaitComplete
  simp only
  rw [if_neg h]

/-- The queue on which a tick calls `WaitComplete`. -/
theorem render_queue_before_wait (gpu : GpuProgress) (app : EditorApplication) :
    (gpuRun app.commandQueue gpu.beforeWait
      (EditorApplication.Render.frame gpu (EditorApplication.Render.resize app)).world).queues
        app.commandQueue =
      { app.queue with
        commandQueue :=
          ((app.queue.commandQueue.drop gpu.beforeCreate).drop gpu.beforeCommit ++
            [GpuCmd.execute [(app.queue.commandList, ListState.Closed)],
             GpuCmd.signal ((app.queue.fenceNumber + 1) % UINT64_RANGE)]).drop gpu.beforeWait,
        fence := completedAfter
          (((app.queue.commandQueue.drop gpu.beforeCreate).drop gpu.beforeCommit ++
            [GpuCmd.execute [(app.queue.commandList, ListState.Closed)],
             GpuCmd.signal ((app.queue.fenceNumber + 1) % UINT64_RANGE)]).take gpu.beforeWait)
          (completedAfter ((app.queue.commandQueue.drop gpu.beforeCreate).take gpu.beforeCommit)
            (completedAfter (app.queue.commandQueue.take gpu.beforeCreate) app.queue.fence)),
        fenceNumber := (app.queue.fenceNumber + 1) % UINT64_RANGE } := by
  have h := frame_queue gpu (EditorApplication.Render.resize app)
  rw [resize_commandQueue, resize_queue] at h
  rw [gpuRun_queue, h]

/-- A tick that starts with the queue idle at `n`, `n + 2 < 2 ^ 64`, returns
and leaves the queue idle at `n + 2`. -/
theorem render_idle (gpu : GpuProgress) (app : EditorApplication) (n : Nat)
    (hidle : app.queue.Idle n) (hroom : n + 2 < UINT64_RANGE) :
    ∃ app1, EditorApplication.Render gpu app = some app1 ∧ app1.queue.Idle (n + 2) ∧
      app1.commandQueue = app.commandQueue ∧ app1.queue.commandList = app.queue.commandList := by
  obtain ⟨app1, hR, hw, hc, -, -, -⟩ := render_returns gpu app
  refine ⟨app1, hR, ?_, hc, ?_⟩
  swap
  · have hl := (waitComplete_spec _ _ _ hw).2.2.2.1
    unfold EditorApplication.queue
    rw [hc, hl, render_queue_before_wait]
    rfl
  obtain ⟨hq, hf, hn⟩ := hidle
  have hb := render_queue_before_wait gpu app
  have hnext : (n + 1) % UINT64_RANGE = n + 1 := Nat.mod_eq_of_lt (by omega)
  rw [hq, hf, hn, hnext] at hb
  simp only [List.drop_nil, List.take_nil, List.nil_append, completedAfter, List.foldl_nil] at hb
  have hord : InOrder
      ((gpuRun app.commandQueue gpu.beforeWait
        (EditorApplication.Render.frame gpu (EditorApplication.Render.resize app)).world).queues
          app.commandQueue).fence
      ((gpuRun app.commandQueue gpu.beforeWait
        (EditorApplication.Render.frame gpu (EditorApplication.Render.resize app)).world).queues
          app.commandQueue).fenceNumber
      ((gpuRun app.commandQueue gpu.beforeWait
        (EditorApplication.Render.frame gpu (EditorApplication.Render.resize app)).world).queues
          app.commandQueue).commandQueue := by
    rw [hb]
    have h0 : InOrder n (n + 1)
        [GpuCmd.execute [(app.queue.commandList, ListState.Closed)], GpuCmd.signal (n + 1)] := by
      simp [InOrder]
    exact inOrder_drop gpu.beforeWait _ _ _ h0
  have hfn : ((gpuRun app.commandQueue gpu.beforeWait
        (EditorApplication.Render.frame gpu (EditorApplication.Render.resize app)).world).queues
          app.commandQueue).fenceNumber = n + 1 := by rw [hb]
  have := waitComplete_inOrder app.commandQueue _ app1.world hw hord (by rw [hfn]; omega)
  rw [hfn] at this
  unfold EditorApplication.queue
  rw [hc]
  exact this

theorem runTicks_append : ∀ (xs ys : List Tick) (app : EditorApplication),
    EditorApplication.runTicks (xs ++ ys) app =
      (EditorApplication.runTicks xs app).bind (EditorApplication.runTicks ys) := by
  intro xs
  induction xs with
  | nil => intro ys app; rfl
  | cons t rest ih =>
    intro ys app
    simp only [List.cons_append, EditorApplication.runTicks]
    cases EditorApplication.Render t.gpu (app.notify t.resized) with
    | none => rfl
    | some app1 => exact ih ys app1

/-- Ticks from an idle queue at `n` leave it idle, two counter values further
per tick, as long as the counter does not wrap. -/
theorem runTicks_idle : ∀ (ticks : List Tick) (app : EditorApplication) (n : Nat),
    app.queue.Idle n → n + 2 * ticks.length < UINT64_RANGE →
    ∃ app1, EditorApplication.runTicks ticks app = some app1 ∧
      app1.queue.Idle (n + 2 * ticks.length) ∧ app1.commandQueue = app.commandQueue ∧
      app1.queue.commandList = app.queue.commandList := by
  intro ticks
  induction ticks with
  | nil => intro app n h _; exact ⟨app, rfl, by simpa using h, rfl, rfl⟩
  | cons t rest ih =>
    intro app n h hroom
    simp only [List.length_cons] at hroom
    have hn : (app.notify t.resized).queue.Idle n := by rw [notify_queue]; exact h
    obtain ⟨app1, h1, hi1, hc1, hl1⟩ := render_idle t.gpu (app.notify t.resized) n hn (by omega)
    obtain ⟨app2, h2, hi2, hc2, hl2⟩ := ih app1 (n + 2) hi1 (by omega)
    refine ⟨app2, by simp [EditorApplication.runTicks, h1, h2], ?_, ?_, ?_⟩
    · have : n + 2 * (rest.length + 1) = n + 2 + 2 * rest.length := by omega
      simp only [List.length_cons]
      rw [this]
      exact hi2
    · rw [hc2, hc1, notify_commandQueue]
    · rw [hl2, hl1, notify_queue]

/-- A tick in which the GPU retires nothing on its own and in which the
completed value is not below the value `WaitComplete` signals: the wait is
skipped, and the tick leaves its list and its two signals in flight. -/
theorem render_without_wait (app : EditorApplication)
    (h : ¬ app.queue.fence < ((app.queue.fenceNumber + 1) % UINT64_RANGE + 1) % UINT64_RANGE) :
    ∃ app1, EditorApplication.Render Tick.idle.gpu app = some app1 ∧
      app1.commandQueue = app.commandQueue ∧
      app1.queue =
        { app.queue with
          commandQueue := app.queue.commandQueue ++
            [GpuCmd.execute [(app.queue.commandList, ListState.Closed)],
             GpuCmd.signal ((app.queue.fenceNumber + 1) % UINT64_RANGE),
             GpuCmd.signal (((app.queue.fenceNumber + 1) % UINT64_RANGE + 1) % UINT64_RANGE)],
          fenceNumber := ((app.queue.fenceNumber + 1) % UINT64_RANGE + 1) % UINT64_RANGE } := by
  obtain ⟨app1, hR, hw, hc, -, -, -⟩ := render_returns Tick.idle.gpu app
  refine ⟨app1, hR, hc, ?_⟩
  have hb := render_queue_before_wait Tick.idle.gpu app
  simp only [Tick.idle, List.drop_zero, List.take_zero, completedAfter, List.foldl_nil] at hb
  have hnw := waitComplete_nowait app.commandQueue
    (gpuRun app.commandQueue Tick.idle.gpu.beforeWait
      (EditorApplication.Render.frame Tick.idle.gpu (EditorApplication.Render.resize app)).world)
  simp only [Tick.idle] at hnw hw
  rw [hb] at hnw
  have hnw1 := hnw h
  rw [hnw1] at hw
  simp only [Option.some.injEq] at hw
  unfold EditorApplication.queue at *
  rw [hc, ← hw]
  simp

/-! ### Colours -/

/-- The components of a clamped colour lie in `[0, 1]`. -/
theorem clamp_inUnit (clamp : ℚ → ℚ → ℚ → ℚ) (hclamp : ∀ x, clamp x 0 1 = min (max x 0) 1)
    (c : WMColor) : (WMColor.Clamp clamp c).InUnit := by
  simp only [WMColor.InUnit, WMColor.Clamp, hclamp]
  refine ⟨⟨?_, ?_⟩, ⟨?_, ?_⟩, ⟨?_, ?_⟩, ⟨?_, ?_⟩⟩ <;>
    first
    | exact le_min (le_max_right _ _) zero_le_one
    | exact min_le_right _ _

/-! ## The claims -/

/-- C1, as amended.  Let a queue go through any events from a state with
counter `n0`, `k` of them advancing the counter, with `n0 + k + 1 < 2 ^ 64`.
Then `ExecuteCommandLists` hands the lists to the native queue, signals the
fence with `n + 1` where `n` is the counter before the call, stores `n + 1` as
the new `fenceNumber` and returns `n + 1`; the returned value is strictly
greater than `n` and than every value an earlier call in the run returned. -/
theorem ExecuteCommandLists_returns_next_fence_value (self : Nat) (events : List QueueEvent)
    (commandLists : List Nat) (w0 w : World) (returned : List Nat)
    (hrun : runEvents self events w0 = some (w, returned))
    (hroom : (w0.queues self).fenceNumber + events.countP QueueEvent.advances + 1 < UINT64_RANGE) :
    ((CommandQueue.ExecuteCommandLists self commandLists w).1.queues self).commandQueue =
        (w.queues self).commandQueue ++
          [GpuCmd.execute (commandLists.map fun l => (l, (w.lists l).state)),
           GpuCmd.signal ((w.queues self).fenceNumber + 1)] ∧
    ((CommandQueue.ExecuteCommandLists self commandLists w).1.queues self).fenceNumber =
        (w.queues self).fenceNumber + 1 ∧
    (CommandQueue.ExecuteCommandLists self commandLists w).2 = (w.queues self).fenceNumber + 1 ∧
    (w.queues self).fenceNumber < (CommandQueue.ExecuteCommandLists self commandLists w).2 ∧
    ∀ v, v ∈ returned → v < (CommandQueue.ExecuteCommandLists self commandLists w).2 := by
  obtain ⟨hfn, hret⟩ := runEvents_returned_bounds self events w0 w returned hrun (by omega)
  have hnext : ((w.queues self).fenceNumber + 1) % UINT64_RANGE = (w.queues self).fenceNumber + 1 :=
    Nat.mod_eq_of_lt (by omega)
  refine ⟨?_, ?_, ?_, ?_, ?_⟩
  · rw [execute_queue, hnext]
  · rw [execute_queue]; exact hnext
  · rw [execute_returned, hnext]
  · rw [execute_returned, hnext]; omega
  · intro v hv
    rw [execute_returned, hnext]
    have := (hret v hv).2
    omega

/-- C1, witness: on the initial world, after `ExecuteCommandLists`,
`WaitComplete`, `ExecuteCommandLists` (which returned 1 and 3), the next call
returns 4. -/
theorem ExecuteCommandLists_returns_next_fence_value_witness :
    (CommandQueue.ExecuteCommandLists 0 [0]
        ((runEvents 0 [QueueEvent.ExecuteCommandLists [0], QueueEvent.WaitComplete,
          QueueEvent.ExecuteCommandLists [0]] World.initial).getD (World.initial, [])).1).2 = 4 ∧
    ∀ v, v ∈ [1, 3] → v < 4 := by
  have h := ExecuteCommandLists_returns_next_fence_value 0
    [QueueEvent.ExecuteCommandLists [0], QueueEvent.WaitComplete, QueueEvent.ExecuteCommandLists [0]]
    [0] World.initial
    ((runEvents 0 [QueueEvent.ExecuteCommandLists [0], QueueEvent.WaitComplete,
      QueueEvent.ExecuteCommandLists [0]] World.initial).getD (World.initial, [])).1
    [1, 3] rfl (by decide)
  exact ⟨h.2.2.1, h.2.2.2.2⟩

/-- C1, counterexample: with the counter at `2 ^ 64 - 1` the call returns 0,
which is not greater than the counter before the call. -/
theorem ExecuteCommandLists_wraps :
    ((World.atFence (UINT64_RANGE - 1) (UINT64_RANGE - 1)).queues 0).fenceNumber
      = UINT64_RANGE - 1 ∧
    (CommandQueue.ExecuteCommandLists 0 [0]
      (World.atFence (UINT64_RANGE - 1) (UINT64_RANGE - 1))).2 = 0 ∧
    ¬ ((World.atFence (UINT64_RANGE - 1) (UINT64_RANGE - 1)).queues 0).fenceNumber <
      (CommandQueue.ExecuteCommandLists 0 [0]
        (World.atFence (UINT64_RANGE - 1) (UINT64_RANGE - 1))).2 := by
  decide

/-- C2, as amended.  For every state of a queue with counter `n`, writing
`next` for the next counter value `(n + 1) mod 2 ^ 64`: `WaitComplete` returns,
it has stored `next` in `fenceNumber` and signalled the fence with `next`
behind everything the native queue had accepted; the thread waited
(`WaitForSingleObject`) exactly when the completed value was below `next`; the
state it returns in is the first one of the GPU's progress (after `k`
"GPU finishes" events, none if it did not wait) in which the completed value
has reached `next`, so that afterwards `completed >= fenceNumber = next`. -/
theorem WaitComplete_blocks_until_signalled_value (self : Nat) (w : World) :
    ∃ w1, CommandQueue.WaitComplete self w = some w1 ∧
      (w1.queues self).fenceNumber = ((w.queues self).fenceNumber + 1) % UINT64_RANGE ∧
      (w1.queues self).fenceNumber ≤ (w1.queues self).fence ∧
      (w1.osWaits = w.osWaits + 1 ↔
        (w.queues self).fence < ((w.queues self).fenceNumber + 1) % UINT64_RANGE) ∧
      (w1.osWaits = w.osWaits ↔
        ¬ (w.queues self).fence < ((w.queues self).fenceNumber + 1) % UINT64_RANGE) ∧
      ∃ k, (w1.queues self).commandQueue =
          ((w.queues self).commandQueue ++
            [GpuCmd.signal (((w.queues self).fenceNumber + 1) % UINT64_RANGE)]).drop k ∧
        (w1.queues self).fence =
          completedAfter (((w.queues self).commandQueue ++
            [GpuCmd.signal (((w.queues self).fenceNumber + 1) % UINT64_RANGE)]).take k)
            (w.queues self).fence ∧
        (k = 0 ↔ ¬ (w.queues self).fence < ((w.queues self).fenceNumber + 1) % UINT64_RANGE) ∧
        ∀ j, j < k →
          completedAfter (((w.queues self).commandQueue ++
            [GpuCmd.signal (((w.queues self).fenceNumber + 1) % UINT64_RANGE)]).take j)
            (w.queues self).fence < ((w.queues self).fenceNumber + 1) % UINT64_RANGE := by
  obtain ⟨w1, hw1⟩ := waitComplete_returns self w
  obtain ⟨hfn, -, -, -, ⟨k, -, hq, hf, hk, hmin⟩, hle, hos, -, -, -⟩ :=
    waitComplete_spec self w w1 hw1
  refine ⟨w1, hw1, hfn, by rw [hfn]; exact hle, ?_, ?_, k, hq, hf, hk, hmin⟩
  · rw [hos]
    by_cases hlt : (w.queues self).fence < ((w.queues self).fenceNumber + 1) % UINT64_RANGE
    · simp [hlt]
    · simp [hlt]
  · rw [hos]
    by_cases hlt : (w.queues self).fence < ((w.queues self).fenceNumber + 1) % UINT64_RANGE
    · simp [hlt]
    · simp [hlt]

/-- C2, counterexample: with the counter at `n = 2 ^ 64 - 1` and the completed
value at 5, `WaitComplete` stores 0 in `fenceNumber`, not `n + 1`, and returns
without waiting although `5 < n + 1`. -/
theorem WaitComplete_wraps :
    ((World.atFence (UINT64_RANGE - 1) 5).queues 0).fenceNumber = UINT64_RANGE - 1 ∧
    ((World.atFence (UINT64_RANGE - 1) 5).queues 0).fence = 5 ∧
    (CommandQueue.WaitComplete 0 (World.atFence (UINT64_RANGE - 1) 5)).map
      (fun w1 => ((w1.queues 0).fenceNumber, (w1.queues 0).fence, w1.osWaits)) = some (0, 5, 0) ∧
    (0 : Nat) ≠ (UINT64_RANGE - 1) + 1 ∧
    (5 : Nat) < (UINT64_RANGE - 1) + 1 := by
  decide

/-- C3, as amended.  A buffer created by the queue at `self` holds that
queue's list, or, after `AddEncodedCommandList` calls, the list last given to
it.  Its `Commit`, in whatever state `w1` it is called, is
`ExecuteCommandLists` on the queue at `self` with exactly that one list: the
native queue of `self` accepts the list and a signal of the next counter value
`(n + 1) mod 2 ^ 64`, `fenceNumber` becomes that value (so `n + 1` unless the
counter was at `2 ^ 64 - 1`), and no other queue, no list and no allocator
changes. -/
theorem Commit_submits_own_list_to_owning_queue (self : Nat) (w w1 : World) (cb : CommandBuffer)
    (encoded : List Nat)
    (hcb : (CommandQueue.CreateCommandBuffer self w).2 = some cb) :
    cb.commandQueue = self ∧ cb.commandList = (w.queues self).commandList ∧
    (encoded.foldl CommandBuffer.AddEncodedCommandList cb).commandList =
      (encoded.getLast?).getD (w.queues self).commandList ∧
    (encoded.foldl CommandBuffer.AddEncodedCommandList cb).Commit w1 =
      (CommandQueue.ExecuteCommandLists self
        [(encoded.foldl CommandBuffer.AddEncodedCommandList cb).commandList] w1).1 ∧
    (((encoded.foldl CommandBuffer.AddEncodedCommandList cb).Commit w1).queues self).commandQueue =
      (w1.queues self).commandQueue ++
        [GpuCmd.execute [((encoded.foldl CommandBuffer.AddEncodedCommandList cb).commandList,
            (w1.lists (encoded.foldl CommandBuffer.AddEncodedCommandList cb).commandList).state)],
         GpuCmd.signal (((w1.queues self).fenceNumber + 1) % UINT64_RANGE)] ∧
    (((encoded.foldl CommandBuffer.AddEncodedCommandList cb).Commit w1).queues self).fenceNumber =
      ((w1.queues self).fenceNumber + 1) % UINT64_RANGE ∧
    ((w1.queues self).fenceNumber + 1 < UINT64_RANGE →
      (((encoded.foldl CommandBuffer.AddEncodedCommandList cb).Commit w1).queues self).fenceNumber =
        (w1.queues self).fenceNumber + 1) ∧
    (∀ other, other ≠ self →
      ((encoded.foldl CommandBuffer.AddEncodedCommandList cb).Commit w1).queues other =
        w1.queues other) ∧
    ((encoded.foldl CommandBuffer.AddEncodedCommandList cb).Commit w1).lists = w1.lists ∧
    ((encoded.foldl CommandBuffer.AddEncodedCommandList cb).Commit w1).allocators =
      w1.allocators := by
  rw [createCommandBuffer_buffer] at hcb
  simp only [Option.some.injEq] at hcb
  subst hcb
  have hq := addEncoded_commandQueue encoded
    { type := D3D12_COMMAND_LIST_TYPE_DIRECT, commandQueue := self,
      commandList := (w.queues self).commandList,
      commandAllocator := (w.queues self).commandAllocator }
  simp only at hq
  refine ⟨rfl, rfl, addEncoded_commandList encoded _, ?_, ?_, ?_, ?_, ?_, rfl, rfl⟩
  · rw [commit_eq, hq]
  · rw [commit_eq, hq, execute_queue]; simp
  · rw [commit_eq, hq, execute_queue]
  · intro h
    rw [commit_eq, hq, execute_queue]
    exact Nat.mod_eq_of_lt h
  · intro other ho
    rw [commit_eq, hq]
    exact execute_other _ _ _ _ ho

/-- C3, witness: the buffer the queue at 0 creates on the initial world,
committed there, takes the counter of queue 0 from 0 to 1 and leaves queue 1
alone. -/
theorem Commit_submits_own_list_to_owning_queue_witness :
    (CommandQueue.CreateCommandBuffer 0 World.initial).2 =
      some CommandBuffer.first ∧
    ((CommandBuffer.Commit CommandBuffer.first World.initial).queues 0).fenceNumber = 1 ∧
    (CommandBuffer.Commit CommandBuffer.first World.initial).queues 1 = World.initial.queues 1 := by
  have h := Commit_submits_own_list_to_owning_queue 0 World.initial World.initial
    CommandBuffer.first [] rfl
  exact ⟨rfl, h.2.2.2.2.2.2.1 (by decide), h.2.2.2.2.2.2.2.1 1 (by decide)⟩

/-- C3, counterexample: committed with the counter at `n = 2 ^ 64 - 1`, the
buffer leaves `fenceNumber` at 0, not at `n + 1`. -/
theorem Commit_wraps :
    (CommandQueue.CreateCommandBuffer 0 (World.atFence (UINT64_RANGE - 1) 0)).2 =
      some CommandBuffer.first ∧
    ((World.atFence (UINT64_RANGE - 1) 0).queues 0).fenceNumber = UINT64_RANGE - 1 ∧
    ((CommandBuffer.Commit CommandBuffer.first
      (World.atFence (UINT64_RANGE - 1) 0)).queues 0).fenceNumber = 0 ∧
    (0 : Nat) ≠ (UINT64_RANGE - 1) + 1 := by
  decide

/-- C4.  For every state, pipeline, run of recording calls and list of render
targets: `CreateCommandBuffer`, `CreateRenderCommandEncoder` (which always
hands out an encoder), the recording calls, `EndEncoding` and `Commit`, in this
order, hand the native queue exactly the buffer's list, and the list is
`Closed` at that moment.  The same holds for the submission of every
`EditorApplication::Render` tick from any state of the editor: since an
encoder is always obtained, its `Commit` always follows `EndEncoding`, and what
the native queue accepts is the queue's list in state `Closed`. -/
theorem Commit_submits_closed_list (self : Nat) (w : World) (pipeline : RenderPipeline)
    (calls : List EncoderCall) (targets : List Nat) (cb : CommandBuffer)
    (enc : RenderCommandEncoder) (gpu : GpuProgress) (app : EditorApplication)
    (hcb : (CommandQueue.CreateCommandBuffer self w).2 = some cb)
    (henc : (cb.CreateRenderCommandEncoder pipeline
      (CommandQueue.CreateCommandBuffer self w).1).2 = some enc) :
    ((cb.CreateRenderCommandEncoder pipeline
      (CommandQueue.CreateCommandBuffer self w).1).1.lists cb.commandList).state = ListState.Open ∧
    ((enc.EndEncoding targets (enc.recordAll calls
      (cb.CreateRenderCommandEncoder pipeline
        (CommandQueue.CreateCommandBuffer self w).1).1)).lists cb.commandList).state
      = ListState.Closed ∧
    ((cb.Commit (enc.EndEncoding targets (enc.recordAll calls
      (cb.CreateRenderCommandEncoder pipeline
        (CommandQueue.CreateCommandBuffer self w).1).1))).queues self).commandQueue =
      (w.queues self).commandQueue ++
        [GpuCmd.execute [(cb.commandList, ListState.Closed)],
         GpuCmd.signal (((w.queues self).fenceNumber + 1) % UINT64_RANGE)] ∧
    (∀ (cb1 : CommandBuffer) (p : RenderPipeline) (w1 : World),
      (cb1.CreateRenderCommandEncoder p w1).2.isSome = true) ∧
    ((EditorApplication.Render.frame gpu (EditorApplication.Render.resize app)).world.queues
      app.commandQueue).commandQueue =
      (app.queue.commandQueue.drop gpu.beforeCreate).drop gpu.beforeCommit ++
        [GpuCmd.execute [(app.queue.commandList, ListState.Closed)],
         GpuCmd.signal ((app.queue.fenceNumber + 1) % UINT64_RANGE)] := by
  rw [createCommandBuffer_buffer] at hcb
  simp only [Option.some.injEq] at hcb
  subst hcb
  rw [createEncoder_encoder] at henc
  simp only [Option.some.injEq] at henc
  subst henc
  refine ⟨createEncoder_state _ _ _, endEncoding_state _ _ _, ?_, fun _ _ _ => rfl, ?_⟩
  · rw [commit_eq, execute_queue]
    simp only [List.map_cons, List.map_nil]
    rw [endEncoding_state, endEncoding_queues, recordAll_queues, createEncoder_queues,
      createCommandBuffer_queues]
  · have h := frame_queue gpu (EditorApplication.Render.resize app)
    rw [resize_commandQueue, resize_queue] at h
    rw [h]

/-- C4, witness: on the initial world the sequence with two recording calls
submits list 0 closed. -/
theorem Commit_submits_closed_list_witness :
    ((CommandBuffer.first.Commit
      (RenderCommandEncoder.EndEncoding
        { renderPipeline := { pipelineState := 0 }, commandBuffer := CommandBuffer.first,
          commandList := 0 } [0]
        (RenderCommandEncoder.recordAll
          { renderPipeline := { pipelineState := 0 }, commandBuffer := CommandBuffer.first,
            commandList := 0 }
          [EncoderCall.ClearRenderTarget, EncoderCall.DrawPrimitives 6 1 0 0]
          (CommandBuffer.first.CreateRenderCommandEncoder { pipelineState := 0 }
            (CommandQueue.CreateCommandBuffer 0 World.initial).1).1))).queues 0).commandQueue =
      [GpuCmd.execute [(0, ListState.Closed)], GpuCmd.signal 1] :=
  (Commit_submits_closed_list 0 World.initial { pipelineState := 0 }
    [EncoderCall.ClearRenderTarget, EncoderCall.DrawPrimitives 6 1 0 0] [0] CommandBuffer.first
    { renderPipeline := { pipelineState := 0 }, commandBuffer := CommandBuffer.first,
      commandList := 0 }
    Tick.idle.gpu EditorApplication.initial rfl rfl).2.2.1

/-- C5, as amended.  Take an editor whose queue is fresh (`fenceNumber` 0,
completed value 0, nothing accepted) through any ticks, fewer than `2 ^ 63` of
them (`2 * ticks < 2 ^ 64`), whatever resize notifications arrive and however
far the GPU gets in between.  The ticks return, and in the world in which the
next tick calls `CreateCommandBuffer` - after its pending resize and whatever
the GPU retired meanwhile - the queue has nothing in flight and the completed
value of the fence is at least (in fact equal to) `fenceNumber`, which is twice
the number of ticks. -/
theorem CreateCommandBuffer_finds_no_work_in_flight (app : EditorApplication) (ticks : List Tick)
    (next : Tick)
    (hfresh : app.queue.fenceNumber = 0 ∧ app.queue.fence = 0 ∧ app.queue.commandQueue = [])
    (hroom : 2 * ticks.length < UINT64_RANGE) :
    ∃ app1, EditorApplication.runTicks ticks app = some app1 ∧
      ((gpuRun app1.commandQueue next.gpu.beforeCreate
          (EditorApplication.Render.resize (app1.notify next.resized)).world).queues
            app1.commandQueue).commandQueue = [] ∧
      ((gpuRun app1.commandQueue next.gpu.beforeCreate
          (EditorApplication.Render.resize (app1.notify next.resized)).world).queues
            app1.commandQueue).fenceNumber ≤
        ((gpuRun app1.commandQueue next.gpu.beforeCreate
          (EditorApplication.Render.resize (app1.notify next.resized)).world).queues
            app1.commandQueue).fence ∧
      ((gpuRun app1.commandQueue next.gpu.beforeCreate
          (EditorApplication.Render.resize (app1.notify next.resized)).world).queues
            app1.commandQueue).fenceNumber = 2 * ticks.length := by
  obtain ⟨h1, h2, h3⟩ := hfresh
  obtain ⟨app1, hrun, ⟨hq, hf, hn⟩, -, -⟩ :=
    runTicks_idle ticks app 0 ⟨h3, h2, h1⟩ (by omega)
  refine ⟨app1, hrun, ?_⟩
  have hw : (EditorApplication.Render.resize (app1.notify next.resized)).world.queues
      app1.commandQueue = app1.queue := by
    rw [resize_world, notify_world]
    rfl
  rw [gpuRun_queue, hw, hq, hf, hn]
  simp [completedAfter]

/-- C5, witness: three ticks of the initial editor, the second after a resize
notification and with the GPU running ahead; the fourth tick creates its
command buffer with nothing in flight and the fence at 6. -/
theorem CreateCommandBuffer_finds_no_work_in_flight_witness :
    ∃ app1, EditorApplication.runTicks
        [Tick.idle,
         { resized := some (800, 600), gpu := { beforeCreate := 1, beforeCommit := 0, beforeWait := 2 } },
         Tick.idle] EditorApplication.initial = some app1 ∧
      ((gpuRun app1.commandQueue 0
          (EditorApplication.Render.resize (app1.notify none)).world).queues
            app1.commandQueue).commandQueue = [] ∧
      ((gpuRun app1.commandQueue 0
          (EditorApplication.Render.resize (app1.notify none)).world).queues
            app1.commandQueue).fenceNumber ≤
        ((gpuRun app1.commandQueue 0
          (EditorApplication.Render.resize (app1.notify none)).world).queues
            app1.commandQueue).fence ∧
      ((gpuRun app1.commandQueue 0
          (EditorApplication.Render.resize (app1.notify none)).world).queues
            app1.commandQueue).fenceNumber = 6 :=
  CreateCommandBuffer_finds_no_work_in_flight EditorApplication.initial
    [Tick.idle,
     { resized := some (800, 600), gpu := { beforeCreate := 1, beforeCommit := 0, beforeWait := 2 } },
     Tick.idle] Tick.idle ⟨rfl, rfl, rfl⟩ (by decide)

/-- C5, counterexample: after `2 ^ 63 + 1` ticks of the initial editor, in
which the GPU retires commands only when the thread waits for it, the counter
has wrapped and the last two ticks returned without waiting.  If the GPU then
retires three commands before the next `CreateCommandBuffer`, that call resets
the allocator with the completed value at 0, below `fenceNumber` 2, and with a
submitted list still in flight. -/
theorem CreateCommandBuffer_after_counter_wrap :
    ∃ app1, EditorApplication.runTicks (List.replicate (2 ^ 63 + 1) Tick.idle)
        EditorApplication.initial = some app1 ∧
      ((gpuRun app1.commandQueue 3
          (EditorApplication.Render.resize (app1.notify none)).world).queues
            app1.commandQueue).commandQueue =
        [GpuCmd.execute [(0, ListState.Closed)], GpuCmd.signal 1, GpuCmd.signal 2] ∧
      ((gpuRun app1.commandQueue 3
          (EditorApplication.Render.resize (app1.notify none)).world).queues
            app1.commandQueue).fence = 0 ∧
      ((gpuRun app1.commandQueue 3
          (EditorApplication.Render.resize (app1.notify none)).world).queues
            app1.commandQueue).fenceNumber = 2 ∧
      ¬ ((gpuRun app1.commandQueue 3
          (EditorApplication.Render.resize (app1.notify none)).world).queues
            app1.commandQueue).fenceNumber ≤
        ((gpuRun app1.commandQueue 3
          (EditorApplication.Render.resize (app1.notify none)).world).queues
            app1.commandQueue).fence := by
  have hsplit : List.replicate (2 ^ 63 + 1) Tick.idle =
      List.replicate (2 ^ 63 - 1) Tick.idle ++ [Tick.idle, Tick.idle] := by
    have : (2 ^ 63 + 1 : Nat) = (2 ^ 63 - 1) + 2 := by norm_num
    rw [this, List.replicate_add]
    rfl
  obtain ⟨app0, hrun0, ⟨hq0, hf0, hn0⟩, hc0, hl0⟩ :=
    runTicks_idle (List.replicate (2 ^ 63 - 1) Tick.idle)
      EditorApplication.initial 0 ⟨rfl, rfl, rfl⟩
      (by simp only [List.length_replicate, UINT64_RANGE]; norm_num)
  simp only [List.length_replicate, Nat.zero_add] at hf0 hn0
  have hl0 : app0.queue.commandList = 0 := hl0
  have hc0 : app0.commandQueue = 0 := hc0
  obtain ⟨appA, hRA, hcA, hqA⟩ := render_without_wait app0
    (by rw [hf0, hn0]; simp only [UINT64_RANGE]; norm_num)
  rw [hq0, hl0, hn0] at hqA
  obtain ⟨appB, hRB, hcB, hqB⟩ := render_without_wait appA
    (by rw [hqA]; simp only [UINT64_RANGE, hf0]; norm_num)
  rw [hqA] at hqB
  simp only [hf0] at hqB
  refine ⟨appB, ?_, ?_⟩
  · have hA : EditorApplication.Render Tick.idle.gpu (app0.notify Tick.idle.resized) = some appA := hRA
    have hB : EditorApplication.Render Tick.idle.gpu (appA.notify Tick.idle.resized) = some appB := hRB
    rw [hsplit, runTicks_append, hrun0]
    show EditorApplication.runTicks [Tick.idle, Tick.idle] app0 = some appB
    simp only [EditorApplication.runTicks, hA, hB]
  · have hw : (EditorApplication.Render.resize (appB.notify none)).world.queues
        appB.commandQueue = appB.queue := by
      rw [resize_world, notify_world]
      rfl
    rw [gpuRun_queue, hw, hqB, hl0]
    simp only [UINT64_RANGE]
    norm_num [completedAfter, GpuCmd.retire]

/-- C6, as amended.  `CreateCommandBuffer` has no failure path: in every
state, whatever the fence has confirmed, it resets the queue's allocator (one
more `Reset`, no other allocator touched) and returns a new buffer on this
queue, its list and its allocator; queues and lists are unchanged. -/
theorem CreateCommandBuffer_always_resets_and_returns (self : Nat) (w : World) :
    (CommandQueue.CreateCommandBuffer self w).2 =
      some { type := D3D12_COMMAND_LIST_TYPE_DIRECT, commandQueue := self,
             commandList := (w.queues self).commandList,
             commandAllocator := (w.queues self).commandAllocator } ∧
    ((CommandQueue.CreateCommandBuffer self w).1.allocators (w.queues self).commandAllocator).resets =
      (w.allocators (w.queues self).commandAllocator).resets + 1 ∧
    (∀ a, a ≠ (w.queues self).commandAllocator →
      (CommandQueue.CreateCommandBuffer self w).1.allocators a = w.allocators a) ∧
    (CommandQueue.CreateCommandBuffer self w).1.queues = w.queues ∧
    (CommandQueue.CreateCommandBuffer self w).1.lists = w.lists := by
  refine ⟨rfl, ?_, ?_, rfl, rfl⟩
  · simp [CommandQueue.CreateCommandBuffer, CommandAllocator.Reset]
  · intro a ha
    simp [CommandQueue.CreateCommandBuffer, Function.update_noteq ha]

/-- C6, counterexample: after one submission on the initial world that the
fence has not confirmed (completed value 0, `fenceNumber` 1, the work still in
the native queue), `CreateCommandBuffer` returns a buffer and has reset the
allocator. -/
theorem CreateCommandBuffer_while_busy :
    (((CommandQueue.ExecuteCommandLists 0 [0] World.initial).1.queues 0).fence <
      ((CommandQueue.ExecuteCommandLists 0 [0] World.initial).1.queues 0).fenceNumber) ∧
    ((CommandQueue.ExecuteCommandLists 0 [0] World.initial).1.queues 0).commandQueue =
      [GpuCmd.execute [(0, ListState.Closed)], GpuCmd.signal 1] ∧
    (CommandQueue.CreateCommandBuffer 0 (CommandQueue.ExecuteCommandLists 0 [0] World.initial).1).2 =
      some CommandBuffer.first ∧
    ((CommandQueue.ExecuteCommandLists 0 [0] World.initial).1.allocators 0).resets = 0 ∧
    ((CommandQueue.CreateCommandBuffer 0
      (CommandQueue.ExecuteCommandLists 0 [0] World.initial).1).1.allocators 0).resets = 1 := by
  decide

/-- C7, as amended.  `Commit` keeps no record of having run: a second `Commit`
of the same buffer submits the held list again.  After two commits the native
queue of the buffer's queue has accepted the list twice, each time followed by
a signal, and `fenceNumber` has advanced twice, to `(n + 2) mod 2 ^ 64`. -/
theorem Commit_twice_submits_twice (cb : CommandBuffer) (w : World) :
    ((cb.Commit (cb.Commit w)).queues cb.commandQueue).commandQueue =
      (w.queues cb.commandQueue).commandQueue ++
        [GpuCmd.execute [(cb.commandList, (w.lists cb.commandList).state)],
         GpuCmd.signal (((w.queues cb.commandQueue).fenceNumber + 1) % UINT64_RANGE),
         GpuCmd.execute [(cb.commandList, (w.lists cb.commandList).state)],
         GpuCmd.signal (((w.queues cb.commandQueue).fenceNumber + 2) % UINT64_RANGE)] ∧
    ((cb.Commit (cb.Commit w)).queues cb.commandQueue).fenceNumber =
      ((w.queues cb.commandQueue).fenceNumber + 2) % UINT64_RANGE := by
  have h2 : (((w.queues cb.commandQueue).fenceNumber + 1) % UINT64_RANGE + 1) % UINT64_RANGE
      = ((w.queues cb.commandQueue).fenceNumber + 2) % UINT64_RANGE := by
    rw [Nat.mod_add_mod]
  constructor
  · rw [commit_eq, execute_queue, commit_eq, execute_queue, execute_lists]
    simp [h2]
  · rw [commit_eq, execute_queue, commit_eq, execute_queue]
    simp [h2]

/-- C7, counterexample: on the initial world the second `Commit` of the buffer
the queue created changes the queue: the list is submitted a second time and
`fenceNumber` goes from 1 to 2. -/
theorem Commit_second_time_submits_again :
    (CommandQueue.CreateCommandBuffer 0 World.initial).2 =
      some CommandBuffer.first ∧
    ((CommandBuffer.Commit CommandBuffer.first
      (CommandQueue.CreateCommandBuffer 0 World.initial).1).queues 0) =
      { device := 0, commandQueue := [GpuCmd.execute [(0, ListState.Closed)], GpuCmd.signal 1],
        commandAllocator := 0, commandList := 0, fence := 0, fenceNumber := 1 } ∧
    ((CommandBuffer.Commit CommandBuffer.first
      (CommandBuffer.Commit CommandBuffer.first
        (CommandQueue.CreateCommandBuffer 0 World.initial).1)).queues 0) =
      { device := 0,
        commandQueue := [GpuCmd.execute [(0, ListState.Closed)], GpuCmd.signal 1,
                         GpuCmd.execute [(0, ListState.Closed)], GpuCmd.signal 2],
        commandAllocator := 0, commandList := 0, fence := 0, fenceNumber := 2 } := by
  decide

/-- C8, as amended.  On one queue, let two `ExecuteCommandLists` calls be
separated by any events other than `ExecuteCommandLists` (`CreateCommandBuffer`,
`CreateSwapChain`, `WaitComplete`, "GPU finishes", in any order).  The first
returns `r1 = (n + 1) mod 2 ^ 64`, the second returns
`(r1 + 1 + waits) mod 2 ^ 64`, where `waits` is the number of `WaitComplete`
calls in between: `WaitComplete` advances the counter too.  In particular a
`Render` tick submits with the fence value `(n + 1) mod 2 ^ 64` and ends with
`fenceNumber = (n + 2) mod 2 ^ 64`, so that the submissions of successive ticks
get fence values two apart. -/
theorem ExecuteCommandLists_value_after_previous (self : Nat) (first second : List Nat)
    (between : List QueueEvent) (w : World) (gpu : GpuProgress) (app : EditorApplication)
    (hbetween : ∀ e, e ∈ between → e.isExecute = false) :
    (∃ w1, runEvents self (QueueEvent.ExecuteCommandLists first ::
        (between ++ [QueueEvent.ExecuteCommandLists second])) w =
      some (w1, [((w.queues self).fenceNumber + 1) % UINT64_RANGE,
        (((w.queues self).fenceNumber + 1) % UINT64_RANGE + 1 +
          between.countP QueueEvent.isWait) % UINT64_RANGE])) ∧
    ((EditorApplication.Render.frame gpu (EditorApplication.Render.resize app)).world.queues
      app.commandQueue).fenceNumber = (app.queue.fenceNumber + 1) % UINT64_RANGE ∧
    ∃ app1, EditorApplication.Render gpu app = some app1 ∧
      app1.queue.fenceNumber = (app.queue.fenceNumber + 2) % UINT64_RANGE := by
  refine ⟨?_, ?_, ?_⟩
  · have hfn : ((CommandQueue.ExecuteCommandLists self first w).1.queues self).fenceNumber =
        ((w.queues self).fenceNumber + 1) % UINT64_RANGE := by rw [execute_queue]
    obtain ⟨w2, hrun2, hfn2⟩ := runEvents_no_execute self between
      (CommandQueue.ExecuteCommandLists self first w).1 hbetween
      (by rw [hfn]; exact uint64_succ_lt _)
    have hlast : runEvents self [QueueEvent.ExecuteCommandLists second] w2 =
        some ((CommandQueue.ExecuteCommandLists self second w2).1,
          [(CommandQueue.ExecuteCommandLists self second w2).2]) := rfl
    have happ := runEvents_append self between [QueueEvent.ExecuteCommandLists second] _ _ _ _ _
      hrun2 hlast
    refine ⟨(CommandQueue.ExecuteCommandLists self second w2).1, ?_⟩
    simp only [runEvents, happ, List.nil_append, execute_returned, hfn2, hfn]
    congr 4
    rw [Nat.mod_add_mod]
    congr 1
    omega
  · have h := frame_queue gpu (EditorApplication.Render.resize app)
    rw [resize_commandQueue, resize_queue] at h
    rw [h]
  · obtain ⟨app1, hR, hw, hc, -, -, -⟩ := render_returns gpu app
    refine ⟨app1, hR, ?_⟩
    have hfn := (waitComplete_spec _ _ _ hw).1
    unfold EditorApplication.queue at *
    rw [hc, hfn, render_queue_before_wait]
    simp only
    rw [Nat.mod_add_mod]
    rfl

/-- C8, witness: on the initial world, with `WaitComplete`,
`CreateCommandBuffer` and a "GPU finishes" event between two submissions, the
submissions return 1 and 3. -/
theorem ExecuteCommandLists_value_after_previous_witness :
    (∀ e, e ∈ [QueueEvent.WaitComplete, QueueEvent.CreateCommandBuffer, QueueEvent.GpuFinish] →
      e.isExecute = false) ∧
    ∃ w1, runEvents 0 (QueueEvent.ExecuteCommandLists [0] ::
        ([QueueEvent.WaitComplete, QueueEvent.CreateCommandBuffer, QueueEvent.GpuFinish] ++
          [QueueEvent.ExecuteCommandLists [0]])) World.initial = some (w1, [1, 3]) :=
  ⟨by decide,
   (ExecuteCommandLists_value_after_previous 0 [0] [0]
    [QueueEvent.WaitComplete, QueueEvent.CreateCommandBuffer, QueueEvent.GpuFinish]
    World.initial Tick.idle.gpu EditorApplication.initial (by decide)).1⟩

/-- C8, counterexample: on the initial world `ExecuteCommandLists`,
`WaitComplete`, `ExecuteCommandLists` return 1 and then 3, not 2; and the
submissions of the first two `Render` ticks of the initial editor get the fence
values 1 and 3. -/
theorem ExecuteCommandLists_skips_value_after_WaitComplete :
    (runEvents 0 [QueueEvent.ExecuteCommandLists [0], QueueEvent.WaitComplete,
      QueueEvent.ExecuteCommandLists [0]] World.initial).map (fun r => r.2) = some [1, 3] ∧
    (3 : Nat) ≠ 1 + 1 ∧
    ((EditorApplication.Render.frame Tick.idle.gpu
      (EditorApplication.Render.resize EditorApplication.initial)).world.queues 0).commandQueue =
      [GpuCmd.execute [(0, ListState.Closed)], GpuCmd.signal 1] ∧
    (EditorApplication.Render Tick.idle.gpu EditorApplication.initial).map
      (fun app1 => ((EditorApplication.Render.frame Tick.idle.gpu
        (EditorApplication.Render.resize app1)).world.queues 0).commandQueue) =
      some [GpuCmd.execute [(0, ListState.Closed)], GpuCmd.signal 3] := by
  decide

/-- C9.  `OnResize` sets `needResize` for every `(width, height)` and touches
nothing else the tick reads.  A `Render` tick returns with `needResize` false;
it has called `SwapChain::Resize` once, with the window's current width and
height, if it was entered with `needResize` true, and not at all otherwise.
The call is made by lines 143-148, which create no command buffer (the world,
allocators included, is as before), and nothing after them resizes. -/
theorem Render_reads_and_clears_needResize (app : EditorApplication) (gpu : GpuProgress)
    (width height : Nat) :
    (app.OnResize width height).needResize = true ∧
    (app.OnResize width height).world = app.world ∧
    (app.OnResize width height).swapChain = app.swapChain ∧
    (app.OnResize width height).window = app.window ∧
    (EditorApplication.Render.resize app).needResize = false ∧
    (EditorApplication.Render.resize app).swapChain.resizeCalls =
      app.swapChain.resizeCalls ++
        (if app.needResize then [(app.window.width, app.window.height)] else []) ∧
    (EditorApplication.Render.resize app).world = app.world ∧
    ((EditorApplication.Render.frame gpu (EditorApplication.Render.resize app)).world.allocators
      app.queue.commandAllocator).resets = (app.world.allocators app.queue.commandAllocator).resets + 1 ∧
    ∃ app1, EditorApplication.Render gpu app = some app1 ∧
      app1.needResize = false ∧
      app1.swapChain.resizeCalls =
        app.swapChain.resizeCalls ++
          (if app.needResize then [(app.window.width, app.window.height)] else []) ∧
      app1.swapChain.presents = app.swapChain.presents + 1 := by
  have hcalls : (EditorApplication.Render.resize app).swapChain.resizeCalls =
      app.swapChain.resizeCalls ++
        (if app.needResize then [(app.window.width, app.window.height)] else []) := by
    unfold EditorApplication.Render.resize
    by_cases h : app.needResize = true
    · simp [h, SwapChain.Resize]
    · simp [h]
  have hpres : (EditorApplication.Render.resize app).swapChain.presents = app.swapChain.presents := by
    unfold EditorApplication.Render.resize
    by_cases h : app.needResize = true
    · simp [h, SwapChain.Resize]
    · simp [h]
  refine ⟨rfl, rfl, rfl, rfl, resize_needResize app, hcalls, resize_world app, ?_, ?_⟩
  · have h := frame_allocators gpu (EditorApplication.Render.resize app)
    rw [resize_queue, resize_world] at h
    rw [h]
    simp [CommandAllocator.Reset]
  · obtain ⟨app1, hR, -, -, hs, hn, -⟩ := render_returns gpu app
    refine ⟨app1, hR, hn, ?_, ?_⟩
    · rw [hs]
      exact hcalls
    · rw [hs]
      show (EditorApplication.Render.resize app).swapChain.presents + 1 = _
      rw [hpres]

/-- C10.  Over exact arithmetic, with `Clamp(x, 0, 1) = min(max(x, 0), 1)`:
for all colours `a`, `b` and every scalar `v` each component of `a + b`,
`a - b` and `a * v` lies in `[0, 1]`, and `WMColor::Clamp` is idempotent. -/
theorem WMColor_operators_in_unit_range (clamp : ℚ → ℚ → ℚ → ℚ)
    (hclamp : ∀ x, clamp x 0 1 = min (max x 0) 1) (a b : WMColor) (v : ℚ) :
    (WMColor.add clamp a b).InUnit ∧ (WMColor.sub clamp a b).InUnit ∧
    (WMColor.mul clamp a v).InUnit ∧
    WMColor.Clamp clamp (WMColor.Clamp clamp a) = WMColor.Clamp clamp a := by
  refine ⟨clamp_inUnit clamp hclamp _, clamp_inUnit clamp hclamp _, clamp_inUnit clamp hclamp _, ?_⟩
  have hidem : ∀ x : ℚ, min (max (min (max x 0) 1) 0) 1 = min (max x 0) 1 := by
    intro x
    have h0 : (0 : ℚ) ≤ min (max x 0) 1 := le_min (le_max_right _ _) zero_le_one
    rw [max_eq_left h0, min_eq_left (min_le_right _ _)]
  simp only [WMColor.Clamp, hclamp, hidem]

/-- C10, witness: with the exact clamp, `(3/4, 1/2, 0, 1) + (1/2, 1/4, 0, 1)`
is `(1, 3/4, 0, 1)`, and its components lie in `[0, 1]`. -/
theorem WMColor_operators_in_unit_range_witness :
    (∀ x, exactClamp x 0 1 = min (max x 0) 1) ∧
    WMColor.add exactClamp { r := 3 / 4, g := 1 / 2, b := 0, a := 1 }
      { r := 1 / 2, g := 1 / 4, b := 0, a := 1 } = { r := 1, g := 3 / 4, b := 0, a := 1 } ∧
    (WMColor.add exactClamp { r := 3 / 4, g := 1 / 2, b := 0, a := 1 }
      { r := 1 / 2, g := 1 / 4, b := 0, a := 1 }).InUnit :=
  ⟨fun _ => rfl, by norm_num [WMColor.add, WMColor.Clamp, exactClamp],
   (WMColor_operators_in_unit_range exactClamp (fun _ => rfl)
    { r := 3 / 4, g := 1 / 2, b := 0, a := 1 } { r := 1 / 2, g := 1 / 4, b := 0, a := 1 } 2).1⟩

end WildMini
